import Mathlib

namespace WCost

/-!
Verification of the session cost-reconstruction and statistics engine of
`scripts/workflow-cost.py`.

The Python source is shallowly embedded:
* monetary amounts and Python floats are modelled as rationals (`ℚ`);
* JSON values (the result of `json.loads`) are modelled by the inductive
  type `WCost.J`, with JSON numbers modelled as integers (all numeric
  fields in the log format are token counts);
* Python dictionaries are modelled as insertion-ordered association
  lists, and in-place mutation as functional update (observationally
  equivalent, because an exception aborts `parse_jsonl` without
  returning any state);
* Python exceptions (`AttributeError`, `KeyError`, `TypeError`) raised
  by the untried code paths of `parse_jsonl` are modelled with
  `Except PyErr`.
-/

/-! ## CostModel: `MODEL_PRICING`, `DEFAULT_PRICING`, `calculate_cost` -/

/-- One row of the `MODEL_PRICING` table: the five per-million-token
rates of a model (lines 34-70 of `workflow-cost.py`). -/
structure Pricing where
  input : ℚ
  output : ℚ
  cache_5m : ℚ
  cache_1h : ℚ
  cache_read : ℚ
deriving DecidableEq

/-- The pricing of `"claude-opus-4-6"`. -/
def opus46Pricing : Pricing :=
  { input := 5, output := 25, cache_5m := 6.25, cache_1h := 10, cache_read := 0.5 }

/-- `MODEL_PRICING` (lines 34-70): a dict from model name to rates,
modelled as an association list in the source order. -/
def MODEL_PRICING : List (String × Pricing) :=
  [ ("claude-opus-4-6", opus46Pricing),
    ("claude-opus-4-5-20251101",
      { input := 5, output := 25, cache_5m := 6.25, cache_1h := 10, cache_read := 0.5 }),
    ("claude-opus-4-1-20250805",
      { input := 15, output := 75, cache_5m := 18.75, cache_1h := 30, cache_read := 1.5 }),
    ("claude-sonnet-4-5-20250929",
      { input := 3, output := 15, cache_5m := 3.75, cache_1h := 6, cache_read := 0.3 }),
    ("claude-haiku-4-5-20251001",
      { input := 1, output := 5, cache_5m := 1.25, cache_1h := 2, cache_read := 0.1 }) ]

/-- `DEFAULT_PRICING = MODEL_PRICING["claude-opus-4-6"]` (line 73). -/
def DEFAULT_PRICING : Pricing := opus46Pricing

/-- The per-model token counters of `tokens_by_model` entries
(lines 254-258): input, output, the two cache-write tiers, cache read
and the message count. -/
structure Tokens where
  input : Int
  output : Int
  cache_5m : Int
  cache_1h : Int
  cache_read : Int
  messages : Int
deriving DecidableEq

/-- The zero entry created on first sight of a model (lines 254-258). -/
def zeroTokens : Tokens :=
  { input := 0, output := 0, cache_5m := 0, cache_1h := 0, cache_read := 0, messages := 0 }

/-- The five-term contribution of one `tokens_by_model` entry inside
`calculate_cost` (lines 307-311). -/
def costWith (p : Pricing) (t : Tokens) : ℚ :=
  t.input * p.input / 1000000 + t.output * p.output / 1000000 +
    t.cache_5m * p.cache_5m / 1000000 + t.cache_1h * p.cache_1h / 1000000 +
    t.cache_read * p.cache_read / 1000000

/-- `MODEL_PRICING.get(model, DEFAULT_PRICING)` (line 306): the dict is
keyed by strings, so any non-string key falls to the default. -/
def pricingFor (model : String) : Pricing :=
  match MODEL_PRICING.find? (fun kv => kv.1 == model) with
  | some kv => kv.2
  | none => DEFAULT_PRICING

/-! ## Percentile (the `percentile` helper inside `generate_stats`, lines 711-715) -/

/-- Python `int()` applied to a float: truncation toward zero. -/
def pyInt (q : ℚ) : ℤ := if 0 ≤ q then ⌊q⌋ else ⌈q⌉

/-- Python list indexing `data[i]` for the indices reached by
`percentile`; out-of-range indices (never reached when `0 ≤ p ≤ 100`,
see the bounds theorem below) default to `0`. -/
def qIdx (data : List ℚ) (i : ℤ) : ℚ := data.getD i.toNat 0

/-- `f = int(k)` with `k = (p / 100) * (len(data) - 1)` (lines 712-713). -/
def percentileF (data : List ℚ) (p : ℚ) : ℤ :=
  pyInt ((p / 100) * ((data.length : ℚ) - 1))

/-- `c = f + 1 if f + 1 < len(data) else f` (line 714). -/
def percentileC (data : List ℚ) (p : ℚ) : ℤ :=
  if percentileF data p + 1 < (data.length : ℤ) then percentileF data p + 1
  else percentileF data p

/-- `percentile(data, p)` (lines 711-715):
`data[f] + (k - f) * (data[c] - data[f])`. -/
def percentile (data : List ℚ) (p : ℚ) : ℚ :=
  let k : ℚ := (p / 100) * ((data.length : ℚ) - 1)
  qIdx data (percentileF data p) +
    (k - (percentileF data p : ℚ)) *
      (qIdx data (percentileC data p) - qIdx data (percentileF data p))

/-! ## PathDecoder: `_decode_project_path` (lines 140-168) -/

/-- The nested `while` loops of `_decode_project_path` (lines 155-166),
fused into one recursion over the raw segments.  `cand` is the current
candidate segment: while `path / cand` does not exist and raw segments
remain, `cand` is re-joined with the filler character and the next raw
segment (the inner loop, lines 160-164); when it exists — or when
segments run out — `cand` is accepted and appended (line 165).  The
filesystem is the injected existence predicate `ex` over the list of
path segments below `/`. -/
def decodeGo (ex : List String → Bool) (path : List String) (cand : String) :
    List String → List String
  | [] => path ++ [cand]
  | p :: rest =>
    if ex (path ++ [cand]) then decodeGo ex (path ++ [cand]) p rest
    else decodeGo ex path (cand ++ "-" ++ p) rest

/-- Python `str.split("-")` (line 152), over the character list:
keeps empty segments, and yields `[""]` on the empty string. -/
def splitDash : List Char → List String
  | [] => [""]
  | c :: cs =>
    let r := splitDash cs
    if c = '-' then "" :: r
    else
      match r with
      | [] => [String.mk [c]]
      | s :: ss => String.mk (c :: s.toList) :: ss

/-- `_decode_project_path(encoded)` (lines 140-168): drop the leading
character (the encoded root `/`), split the remainder on `"-"`, and run
the greedy existence-probing reconstruction.  The returned absolute
path is represented by its list of segments below `/`.  (`splitDash`
never returns `[]`, so the first match arm is unreachable.) -/
def decodeProjectPath (ex : List String → Bool) (encoded : String) : List String :=
  match splitDash (encoded.toList.drop 1) with
  | [] => []
  | p :: rest => decodeGo ex [] p rest

/-! ## JSON values and Python primitives used by `parse_jsonl` -/

/-- The result of `json.loads` on one line.  JSON numbers are modelled
as integers (every numeric field of the log format is a token count);
objects are insertion-ordered association lists with string keys. -/
inductive J where
  | null
  | bool (b : Bool)
  | num (n : Int)
  | str (s : String)
  | arr (xs : List J)
  | obj (kvs : List (String × J))

/-- The Python exceptions that the statements of `parse_jsonl` can
raise on ill-shaped (but JSON-decodable) records. -/
inductive PyErr where
  | attributeError
  | keyError
  | typeError
deriving DecidableEq

/-- Explicit bind for `Except PyErr`, used to model the sequential,
exception-propagating statements of the Python source. -/
def ebind {α β : Type} : Except PyErr α → (α → Except PyErr β) → Except PyErr β
  | .error e, _ => .error e
  | .ok a, f => f a

/-- Python dict lookup on a JSON object: the binding that survives
duplicate keys in `json.loads` is the last one. -/
def dictGet (kvs : List (String × J)) (k : String) : Option J :=
  ((kvs.filter (fun kv => kv.1 == k)).getLast?).map (fun kv => kv.2)

/-- Python truthiness of a JSON-decoded value. -/
def truthy : J → Bool
  | .null => false
  | .bool b => b
  | .num n => n != 0
  | .str s => s != ""
  | .arr xs => !xs.isEmpty
  | .obj kvs => !kvs.isEmpty

/-- `data.get(k, d)`: raises `AttributeError` when `data` is not a
dict, otherwise total (absent key gives the default). -/
def pyGet (j : J) (k : String) (d : J) : Except PyErr J :=
  match j with
  | .obj kvs => .ok ((dictGet kvs k).getD d)
  | _ => .error .attributeError

/-- Python `==` between a JSON value and a string literal: values of
other runtime types compare unequal. -/
def jEqStr (j : J) (s : String) : Bool :=
  match j with
  | .str t => t == s
  | _ => false

/-- A JSON value used where Python adds it to an `int` counter:
numbers (and bools, which are ints in Python) succeed, anything else
raises `TypeError`. -/
def asNum : J → Except PyErr Int
  | .num n => .ok n
  | .bool b => .ok (if b then 1 else 0)
  | _ => .error .typeError

/-- A JSON value used as a dict key (`tokens_by_model[model]`): lists
and dicts are unhashable and raise `TypeError`. -/
def asKey : J → Except PyErr J
  | .arr _ => .error .typeError
  | .obj _ => .error .typeError
  | j => .ok j

/-- Equality of hashable JSON keys (only reached on values accepted by
`asKey`). -/
def keyEq : J → J → Bool
  | .null, .null => true
  | .bool a, .bool b => a == b
  | .num a, .num b => a == b
  | .str a, .str b => a == b
  | _, _ => false

/-! ## The workflow-detection regular expressions (lines 171-194)

`re.search` with the pattern `<command-name>/([\w-]+)</command-name>`
is modelled exactly: the pattern matches at a position iff the literal
open marker is followed by a non-empty run of word/hyphen characters
followed by the literal close marker (the greedy `[\w-]+` cannot
backtrack into a match because the close marker starts with `<`, which
is not a word/hyphen character), and `search` returns the leftmost
match. -/

/-- A character of the regex class `[\w-]` (ASCII fragment of `\w`;
the log format only produces ASCII command names). -/
def isWordHyphen (c : Char) : Bool := c.isAlphanum || c == '_' || c == '-'

def cmdOpenMarker : List Char := "<command-name>/".toList

def cmdCloseMarker : List Char := "</command-name>".toList

/-- Try `<command-name>/([\w-]+)</command-name>` anchored at the head
of `cs`; return the captured group. -/
def matchCmdAt (cs : List Char) : Option String :=
  if cmdOpenMarker.isPrefixOf cs then
    let rest := cs.drop cmdOpenMarker.length
    let nm := rest.takeWhile isWordHyphen
    if !nm.isEmpty && cmdCloseMarker.isPrefixOf (rest.dropWhile isWordHyphen) then
      some (String.mk nm)
    else none
  else none

/-- `_RE_COMMAND_NAME.search(text)`: leftmost match. -/
def searchCmdName : List Char → Option String
  | [] => none
  | c :: cs =>
    match matchCmdAt (c :: cs) with
    | some s => some s
    | none => searchCmdName cs

def argOpenMarker : List Char := "<command-args>".toList

def argCloseMarker : List Char := "</command-args>".toList

/-- The non-greedy capture `(.*?)` of `_RE_COMMAND_ARGS` after the open
marker: the shortest newline-free prefix followed by the close marker
(`.` does not match a newline without `re.S`). -/
def captureArgs (acc : List Char) : List Char → Option (List Char)
  | [] => if argCloseMarker.isPrefixOf [] then some acc.reverse else none
  | c :: cs' =>
    if argCloseMarker.isPrefixOf (c :: cs') then some acc.reverse
    else if c = '\n' then none
    else captureArgs (c :: acc) cs'

/-- `_RE_COMMAND_ARGS.search(text)`: leftmost position where the open
marker is followed by a completed non-greedy capture. -/
def searchCmdArgs : List Char → Option String
  | [] => none
  | c :: cs =>
    match
      (if argOpenMarker.isPrefixOf (c :: cs) then
        (captureArgs [] ((c :: cs).drop argOpenMarker.length)).map String.mk
      else none) with
    | some s => some s
    | none => searchCmdArgs cs

/-- `TRACKED_WORKFLOWS` (lines 175-178). -/
def TRACKED_WORKFLOWS : List String :=
  [ "ecc-dev-story", "ecc-code-review", "ecc-create-story",
    "ecc-e2e", "ecc-impact-analysis", "deploy-story" ]

/-- Python `str.strip()` (line 193): drop leading and trailing
whitespace. -/
def pyStrip (s : String) : String :=
  String.mk (((s.toList.dropWhile Char.isWhitespace).reverse.dropWhile
    Char.isWhitespace).reverse)

/-- `_detect_workflow_from_text(text)` (lines 181-194): the first
command-name match (or `("", "")`), paired with the stripped first
command-args match (or `""`). -/
def detectWorkflowFromText (text : String) : String × String :=
  match searchCmdName text.toList with
  | none => ("", "")
  | some nm =>
    let story :=
      match searchCmdArgs text.toList with
      | some s => pyStrip s
      | none => ""
    (nm, story)

/-! ## `parse_jsonl` (lines 197-299) -/

/-- One entry of the `task_calls` list (lines 284-288). -/
structure TaskCall where
  subagent_type : J
  description : J
  model : J

/-- The accumulator variables of `parse_jsonl` (lines 199-206), which
are also its returned dict (lines 290-299). -/
structure ParseState where
  tokens_by_model : List (J × Tokens)
  first_ts : J
  last_ts : J
  msg_count : Int
  first_user_msg : J
  task_calls : List TaskCall
  detected_workflow : String
  detected_story : String

/-- The initial values of the accumulators (lines 199-206);
`None` is `J.null` and `first_user_msg = None` likewise. -/
def initState : ParseState :=
  { tokens_by_model := [], first_ts := .null, last_ts := .null, msg_count := 0,
    first_user_msg := .null, task_calls := [], detected_workflow := "",
    detected_story := "" }

/-- Lookup of `tokens_by_model[model]` by hashable key. -/
def tbmLookup (tbm : List (J × Tokens)) (k : J) : Option Tokens :=
  match tbm.find? (fun kv => keyEq kv.1 k) with
  | some kv => some kv.2
  | none => none

/-- Store an entry under a key: an existing key keeps its position
(dict insertion order), a new key is appended. -/
def tbmSet (tbm : List (J × Tokens)) (k : J) (t : Tokens) : List (J × Tokens) :=
  if (tbm.find? (fun kv => keyEq kv.1 k)).isSome then
    tbm.map (fun kv => if keyEq kv.1 k then (kv.1, t) else kv)
  else tbm ++ [(k, t)]

/-- Python slicing `v[:150]` as applied to `block["text"]`
(line 237): defined on strings and lists, `TypeError` otherwise. -/
def pySlice150 : J → Except PyErr J
  | .str s => .ok (.str (s.take 150))
  | .arr xs => .ok (.arr (xs.take 150))
  | _ => .error .typeError

/-- The user-record block loop (lines 232-237): collect the `"text"`
field of every `"text"`-typed dict block into `texts`, setting
`first_user_msg` from the first such block while it is still falsy.
`block["text"]` on a block without that key raises `KeyError`. -/
def userBlocks (fum : J) (texts : List J) : List J → Except PyErr (List J × J)
  | [] => .ok (texts, fum)
  | b :: bs =>
    match b with
    | .obj kvs =>
      if jEqStr ((dictGet kvs "type").getD .null) "text" then
        match dictGet kvs "text" with
        | none => .error .keyError
        | some tj =>
          if truthy fum then userBlocks fum (texts ++ [tj]) bs
          else ebind (pySlice150 tj) (fun fum' => userBlocks fum' (texts ++ [tj]) bs)
      else userBlocks fum texts bs
    | _ => userBlocks fum texts bs

/-- The workflow-detection loop over the collected texts
(lines 241-246): `_detect_workflow_from_text` on a non-string raises
`TypeError` (the regex `search` rejects non-string arguments); the
first text whose first command-name match is a tracked workflow wins. -/
def detectLoop : List J → Except PyErr (Option (String × String))
  | [] => .ok none
  | t :: ts =>
    match t with
    | .str s =>
      let d := detectWorkflowFromText s
      if d.1 != "" && TRACKED_WORKFLOWS.contains d.1 then .ok (some d)
      else detectLoop ts
    | _ => .error .typeError

/-- The `isinstance` dispatch on a user record's `content`
(lines 227-237): a plain string is itself the single text; a block
list is scanned by `userBlocks`; any other runtime type contributes no
text. -/
def userContentTexts (fum : J) : J → Except PyErr (List J × J)
  | .str cs => .ok ([J.str cs], if truthy fum then fum else J.str (cs.take 150))
  | .arr bs => userBlocks fum [] bs
  | _ => .ok ([], fum)

/-- The guarded detection step over the collected texts
(lines 239-246): only while no workflow is detected yet; a hit locks
in both the workflow and the story. -/
def detectInTexts (dwf dst : String) (tf : List J × J) :
    Except PyErr (J × String × String) :=
  if dwf == "" then
    ebind (detectLoop tf.1) fun hit =>
      match hit with
      | some d => .ok (tf.2, d.1, d.2)
      | none => .ok (tf.2, dwf, dst)
  else .ok (tf.2, dwf, dst)

/-- The user-record branch (lines 224-246).  It reads and writes only
`first_user_msg`, `detected_workflow` and `detected_story`; the result
triple is those three fields. -/
def userStep (fum : J) (dwf dst : String) (data : J) :
    Except PyErr (J × String × String) :=
  ebind (pyGet data "message" (.obj [])) fun msg =>
  ebind (pyGet msg "content" (.str "")) fun content =>
  ebind (userContentTexts fum content) fun tf =>
  detectInTexts dwf dst tf

/-- The `Task`-tool-call scan of an assistant record's content blocks
(lines 277-288): `inp.get(...)` raises `AttributeError` when a present
`"input"` field is not a dict. -/
def taskBlocks (acc : List TaskCall) : List J → Except PyErr (List TaskCall)
  | [] => .ok acc
  | b :: bs =>
    match b with
    | .obj kvs =>
      if jEqStr ((dictGet kvs "type").getD .null) "tool_use" &&
          jEqStr ((dictGet kvs "name").getD .null) "Task" then
        match (dictGet kvs "input").getD (.obj []) with
        | .obj ikvs =>
          taskBlocks
            (acc ++ [{ subagent_type := (dictGet ikvs "subagent_type").getD (.str "?"),
                       description := (dictGet ikvs "description").getD (.str "?"),
                       model := (dictGet ikvs "model").getD (.str "inherited") }]) bs
        | _ => .error .attributeError
      else taskBlocks acc bs
    | _ => taskBlocks acc bs

/-- The cache-creation tier parse (lines 267-273): a truthy
`cache_creation` dict yields the 5m/1h pair, otherwise the flat
`cache_creation_input_tokens` count is attributed to the 1h tier. -/
def cacheWrite (usage cacheDetail : J) : Except PyErr (Int × Int) :=
  if truthy cacheDetail then
    ebind (ebind (pyGet cacheDetail "ephemeral_5m_input_tokens" (.num 0)) asNum)
      fun e5 =>
    ebind (ebind (pyGet cacheDetail "ephemeral_1h_input_tokens" (.num 0)) asNum)
      fun e1 =>
    .ok (e5, e1)
  else
    ebind (ebind (pyGet usage "cache_creation_input_tokens" (.num 0)) asNum)
      fun cc =>
    .ok ((0 : Int), cc)

/-- The `isinstance(content, list)` dispatch of the `Task`-tool scan
(lines 277-288). -/
def scanTasks (tcs : List TaskCall) : J → Except PyErr (List TaskCall)
  | .arr bs => taskBlocks tcs bs
  | _ => .ok tcs

/-- The assistant-record branch (lines 248-288).  It reads and writes
only `tokens_by_model`, `msg_count` and `task_calls`; functional update
stands for the in-place `entry[...] += ...` mutations (equivalent
because an exception aborts `parse_jsonl` with no returned state). -/
def assistantStep (tbm : List (J × Tokens)) (mc : Int) (tcs : List TaskCall)
    (data : J) : Except PyErr (List (J × Tokens) × Int × List TaskCall) :=
  ebind (pyGet data "message" (.obj [])) fun msg =>
  ebind (pyGet msg "usage" (.obj [])) fun usage =>
  ebind (pyGet msg "model" (.str "unknown")) fun modelJ =>
  ebind (asKey modelJ) fun key =>
  let entry := (tbmLookup tbm key).getD zeroTokens
  ebind (ebind (pyGet usage "input_tokens" (.num 0)) asNum) fun iv =>
  ebind (ebind (pyGet usage "output_tokens" (.num 0)) asNum) fun ov =>
  ebind (ebind (pyGet usage "cache_read_input_tokens" (.num 0)) asNum) fun crv =>
  ebind (pyGet usage "cache_creation" (.obj [])) fun cacheDetail =>
  ebind (cacheWrite usage cacheDetail) fun cw =>
  let entry' : Tokens :=
    { input := entry.input + iv, output := entry.output + ov,
      cache_5m := entry.cache_5m + cw.1, cache_1h := entry.cache_1h + cw.2,
      cache_read := entry.cache_read + crv, messages := entry.messages + 1 }
  let tbm' := tbmSet tbm key entry'
  ebind (pyGet msg "content" (.arr [])) fun content =>
  ebind (scanTasks tcs content) fun tcs' =>
  .ok (tbm', mc + 1, tcs')

/-- The timestamp update (lines 218-222): a truthy `timestamp` value
always becomes `last_ts`, and becomes `first_ts` while `first_ts` is
still falsy. -/
def tsUpdate (s : ParseState) (ts : J) : ParseState :=
  if truthy ts then
    { s with first_ts := if truthy s.first_ts then s.first_ts else ts,
             last_ts := ts }
  else s

/-- Processing of one JSON-decoded record (lines 218-288): the
timestamp first/last update, then the user branch, then the assistant
branch. -/
def processRecord (s : ParseState) (data : J) : Except PyErr ParseState :=
  ebind (pyGet data "timestamp" .null) fun ts =>
  let s := tsUpdate s ts
  ebind (pyGet data "type" .null) fun typ =>
  ebind
    (if jEqStr typ "user" then
      ebind (userStep s.first_user_msg s.detected_workflow s.detected_story data)
        fun u => .ok { s with first_user_msg := u.1, detected_workflow := u.2.1,
                              detected_story := u.2.2 }
    else .ok s) fun s =>
  if jEqStr typ "assistant" then
    ebind (assistantStep s.tokens_by_model s.msg_count s.task_calls data)
      fun a => .ok { s with tokens_by_model := a.1, msg_count := a.2.1,
                            task_calls := a.2.2 }
  else .ok s

/-- One element of the input line sequence: `none` stands for a line
that is skipped before record processing — blank after `strip()`, or
rejected by `json.loads` with `JSONDecodeError` (lines 209-216) —
`some j` for a line that decodes to the JSON value `j`. -/
abbrev LogLine := Option J

/-- One iteration of the record loop (lines 209-216): a blank or
JSON-undecodable line is skipped by `continue`, a decoded record is
processed. -/
def stepLine (s : ParseState) : LogLine → Except PyErr ParseState
  | none => .ok s
  | some j => processRecord s j

/-- The record loop of `parse_jsonl` (lines 209-288) over the decoded
line sequence. -/
def parseLines (lines : List LogLine) : Except PyErr ParseState :=
  lines.foldlM stepLine initState

/-! ## `calculate_cost` (lines 302-312) -/

/-- `MODEL_PRICING.get(model, DEFAULT_PRICING)` where the key is the
JSON value of `message.model`: the table is keyed by strings, so a
non-string key always falls to the default. -/
def pricingForKey (model : J) : Pricing :=
  match model with
  | .str s => pricingFor s
  | _ => DEFAULT_PRICING

/-- `calculate_cost(tokens_by_model)` (lines 302-312). -/
def calculate_cost (tbm : List (J × Tokens)) : ℚ :=
  tbm.foldl (fun total kv => total + costWith (pricingForKey kv.1) kv.2) 0

/-- Per-model token totals over an aggregate, as summed by the report
and CSV layers (lines 442-443, 482-483). -/
def totalInput (tbm : List (J × Tokens)) : Int :=
  (tbm.map (fun kv => kv.2.input)).sum

def totalOutput (tbm : List (J × Tokens)) : Int :=
  (tbm.map (fun kv => kv.2.output)).sum

/-! ## `generate_stats` (lines 687-821)

The CSV reading is glue: a parsed CSV row enters the model as a `Row`
with `total_cost` already converted by Python `float(...)`; monetary
values are exact rationals.  Python `sorted` (ascending, stable) is
modelled by `List.insertionSort`, which is also ascending and stable.
Python `round(x, d)` is modelled as exact decimal round-half-to-even. -/

/-- The fields of a tracking-CSV row that `generate_stats` reads. -/
structure Row where
  date : String
  session_id : String
  workflow : String
  models : String
  total_cost : ℚ
deriving DecidableEq

/-- One entry of `recent_outliers` (lines 741-746). -/
structure Outlier where
  date : String
  session_id : String
  cost : ℚ
  ratioToAvg : ℚ
deriving DecidableEq

/-- One entry of the per-workflow breakdown (lines 787-795). -/
structure WfStats where
  count : Nat
  total_cost : ℚ
  avg : ℚ
  avg_last_10 : ℚ
  p50 : ℚ
  p75 : ℚ
  p90 : ℚ
deriving DecidableEq

/-- The statistics dict returned by `generate_stats` (lines 797-821),
without the run-date and file-path bookkeeping fields. -/
structure Stats where
  total_sessions : Nat
  total_cost : ℚ
  avg_overall : ℚ
  avg_last_10 : ℚ
  avg_last_20 : ℚ
  p50 : ℚ
  p75 : ℚ
  p90 : ℚ
  p95 : ℚ
  warning : ℚ
  high : ℚ
  trend : Option ℚ
  recent_outliers : List Outlier
  by_model : List (String × Nat × ℚ)
  by_workflow : List (String × WfStats)
deriving DecidableEq

/-- Round-half-to-even to an integer. -/
def roundHalfEven (y : ℚ) : ℤ :=
  if y - ⌊y⌋ < 1/2 then ⌊y⌋
  else if 1/2 < y - ⌊y⌋ then ⌊y⌋ + 1
  else if 2 ∣ ⌊y⌋ then ⌊y⌋ else ⌊y⌋ + 1

/-- Python `round(x, d)` as exact decimal round-half-to-even. -/
def pyRound (x : ℚ) (d : ℕ) : ℚ := (roundHalfEven (x * 10 ^ d) : ℚ) / 10 ^ d

/-- The zero-cost filter (lines 699-702): keep rows with
`float(total_cost) > 0`. -/
def posRows (rows : List Row) : List Row :=
  rows.filter (fun r => decide (0 < r.total_cost))

/-- `costs` (line 707). -/
def costsOf (rows : List Row) : List ℚ := rows.map (fun r => r.total_cost)

/-- `costs_sorted = sorted(costs)` (line 708). -/
def sortedCosts (rows : List Row) : List ℚ :=
  (costsOf rows).insertionSort (· ≤ ·)

/-- Python `l[-k:]`. -/
def lastN {α : Type} (l : List α) (k : ℕ) : List α := l.drop (l.length - k)

/-- `sum(l) / len(l)`. -/
def avgOf (l : List ℚ) : ℚ := l.sum / l.length

/-- `avg_last_10` before rounding (lines 718, 721). -/
def avgLast10 (rows : List Row) : ℚ :=
  avgOf (if 10 ≤ (sortedCosts rows).length then lastN (costsOf rows) 10
         else costsOf rows)

/-- `avg_last_20` before rounding (lines 719, 722). -/
def avgLast20 (rows : List Row) : ℚ :=
  avgOf (if 20 ≤ (sortedCosts rows).length then lastN (costsOf rows) 20
         else costsOf rows)

/-- `warning_threshold = max(p75, avg_last_20 * 1.5)` (line 731). -/
def warnThreshold (rows : List Row) : ℚ :=
  max (percentile (sortedCosts rows) 75) (avgLast20 rows * 1.5)

/-- `high_threshold = max(p90, avg_last_20 * 2.0)` (line 732). -/
def highThreshold (rows : List Row) : ℚ :=
  max (percentile (sortedCosts rows) 90) (avgLast20 rows * 2)

/-- The outlier entry built for a qualifying recent row
(lines 740-746). -/
def mkOutlier (rows : List Row) (r : Row) : Outlier :=
  { date := r.date, session_id := r.session_id, cost := r.total_cost,
    ratioToAvg :=
      pyRound (if 0 < avgLast20 rows then r.total_cost / avgLast20 rows else 0) 1 }

/-- `recent_outliers` (lines 735-746): among `rows[-20:]`, those with
`cost >= warning_threshold`. -/
def recentOutliers (rows : List Row) : List Outlier :=
  (lastN rows 20).filterMap
    (fun r => if warnThreshold rows ≤ r.total_cost then some (mkOutlier rows r)
              else none)

/-- `trend` (lines 749-755): only with at least 20 qualifying records,
and only when the previous-10 average is positive. -/
def trendOf (rows : List Row) : Option ℚ :=
  if 20 ≤ (sortedCosts rows).length then
    let prev10 := (lastN (costsOf rows) 20).take 10
    let avgPrev10 := avgOf prev10
    if 0 < avgPrev10 then
      some (pyRound ((avgLast10 rows - avgPrev10) / avgPrev10 * 100) 1)
    else none
  else none

/-- `by_model` (lines 758-765): insertion-ordered grouping of
`(count, total_cost)` by the `models` column. -/
def byModelOf (rows : List Row) : List (String × Nat × ℚ) :=
  rows.foldl
    (fun acc r =>
      if (acc.find? (fun kv => kv.1 == r.models)).isSome then
        acc.map (fun kv =>
          if kv.1 == r.models then (kv.1, kv.2.1 + 1, kv.2.2 + r.total_cost)
          else kv)
      else acc ++ [(r.models, 1, r.total_cost)])
    []

/-- `by_workflow` cost accumulation (lines 768-776): rows with a blank
(stripped) workflow label are ignored. -/
def byWorkflowCosts (rows : List Row) : List (String × List ℚ) :=
  rows.foldl
    (fun acc r =>
      let wf := pyStrip r.workflow
      if wf == "" then acc
      else if (acc.find? (fun kv => kv.1 == wf)).isSome then
        acc.map (fun kv =>
          if kv.1 == wf then (kv.1, kv.2 ++ [r.total_cost]) else kv)
      else acc ++ [(wf, [r.total_cost])])
    []

/-- The per-workflow statistics record (lines 780-795). -/
def wfStatsOf (cs : List ℚ) : WfStats :=
  let sorted := cs.insertionSort (· ≤ ·)
  let last10 := if 10 ≤ cs.length then lastN cs 10 else cs
  { count := cs.length,
    total_cost := pyRound cs.sum 2,
    avg := pyRound (cs.sum / cs.length) 2,
    avg_last_10 := pyRound (last10.sum / last10.length) 2,
    p50 := pyRound (percentile sorted 50) 2,
    p75 := pyRound (percentile sorted 75) 2,
    p90 := pyRound (percentile sorted 90) 2 }

/-- `generate_stats` (lines 687-821) on the parsed CSV rows: filter
out zero-cost rows, then build the statistics snapshot; an empty
qualifying set yields no snapshot (the Python `{}`). -/
def genStats (rows0 : List Row) : Option Stats :=
  let rows := posRows rows0
  if rows.isEmpty then none
  else some
    { total_sessions := (sortedCosts rows).length,
      total_cost := pyRound (costsOf rows).sum 2,
      avg_overall := pyRound (avgOf (costsOf rows)) 2,
      avg_last_10 := pyRound (avgLast10 rows) 2,
      avg_last_20 := pyRound (avgLast20 rows) 2,
      p50 := pyRound (percentile (sortedCosts rows) 50) 2,
      p75 := pyRound (percentile (sortedCosts rows) 75) 2,
      p90 := pyRound (percentile (sortedCosts rows) 90) 2,
      p95 := pyRound (percentile (sortedCosts rows) 95) 2,
      warning := pyRound (warnThreshold rows) 2,
      high := pyRound (highThreshold rows) 2,
      trend := trendOf rows,
      recent_outliers := recentOutliers rows,
      by_model := byModelOf rows,
      by_workflow :=
        (byWorkflowCosts rows).filterMap
          (fun kv => if kv.2.length = 0 then none
                     else some (kv.1, wfStatsOf kv.2)) }

/-! # Claims

Each claim of the specification is settled by one theorem below
(with a closed counterexample theorem where the claim as stated fails
on the code, and a closed witness where the theorem carries
hypotheses). -/

/-! ## C8: path-decoding round trip against a filesystem oracle -/

/-- The existence oracle of the C8 scenario: exactly the prefixes of
`/a/b-c/d` exist (`/a`, `/a/b-c`, `/a/b-c/d`), and in particular
`/a/b` does not. -/
def ex8 (segs : List String) : Bool :=
  segs == ["a"] || segs == ["a", "b-c"] || segs == ["a", "b-c", "d"]

/-! ## C1: the default pricing as an upper bound -/

/-- An aggregate of a single input token, under which the fallback
rate visibly underprices `claude-opus-4-1-20250805`. -/
def oneInputToken : Tokens :=
  { input := 1, output := 0, cache_5m := 0, cache_1h := 0, cache_read := 0,
    messages := 0 }

/-! ## C2: the two-assistant-record "sonnet" scenario -/

/-- The state of a successful parse (the `.ok` payload). -/
def okState (e : Except PyErr ParseState) : ParseState :=
  match e with
  | .ok s => s
  | .error _ => initState

/-- An assistant record with `model` exactly the string `"sonnet"`,
`input_tokens=1000`, `output_tokens=500` and no cache usage, as the
scenario of the claim prescribes. -/
def sonnetRec : J :=
  .obj [("type", .str "assistant"),
        ("message", .obj [("model", .str "sonnet"),
                          ("usage", .obj [("input_tokens", .num 1000),
                                          ("output_tokens", .num 500)])])]

def c2Lines : List LogLine := [some sonnetRec, some sonnetRec]

def c2State : ParseState := okState (parseLines c2Lines)

/-- The same record with the full model identifier that the pricing
table actually contains for Sonnet 4.5. -/
def sonnetRecFull : J :=
  .obj [("type", .str "assistant"),
        ("message", .obj [("model", .str "claude-sonnet-4-5-20250929"),
                          ("usage", .obj [("input_tokens", .num 1000),
                                          ("output_tokens", .num 500)])])]

def c2LinesFull : List LogLine := [some sonnetRecFull, some sonnetRecFull]

def c2StateFull : ParseState := okState (parseLines c2LinesFull)

/-! ## C4: malformed lines

A *well-shaped record* is a decoded line on which none of the
dynamically-typed accesses of `parse_jsonl` can raise: a JSON object
whose optional `message` is an object, whose user-content text blocks
carry a string `"text"`, whose usage counters are numbers, and so on.
The predicates below spell this out field by field. -/

/-- The value under `k`, if present, supports `entry[...] += usage.get(k, 0)`. -/
def numOk (kvs : List (String × J)) (k : String) : Bool :=
  match dictGet kvs k with
  | none => true
  | some (.num _) => true
  | some (.bool _) => true
  | some _ => false

/-- The `usage` dict of an assistant record is well-shaped. -/
def wfUsage : J → Bool
  | .obj kvs =>
    numOk kvs "input_tokens" && numOk kvs "output_tokens" &&
    numOk kvs "cache_read_input_tokens" &&
    numOk kvs "cache_creation_input_tokens" &&
    (match (dictGet kvs "cache_creation").getD (.obj []) with
     | .obj ckvs =>
        numOk ckvs "ephemeral_5m_input_tokens" &&
        numOk ckvs "ephemeral_1h_input_tokens"
     | v => !truthy v)
  | _ => false

/-- The `model` value can be used as a dict key. -/
def keyOk : J → Bool
  | .arr _ => false
  | .obj _ => false
  | _ => true

/-- A content block of an assistant record is well-shaped for the
`Task`-tool scan: a `tool_use`/`Task` block must carry a dict `input`
(or none, which defaults to a dict). -/
def taskBlockOk : J → Bool
  | .obj kvs =>
    if jEqStr ((dictGet kvs "type").getD .null) "tool_use" &&
        jEqStr ((dictGet kvs "name").getD .null) "Task" then
      match (dictGet kvs "input").getD (.obj []) with
      | .obj _ => true
      | _ => false
    else true
  | _ => true

/-- The `message` of an assistant record is well-shaped. -/
def wfAssistantMsg : J → Bool
  | .obj mkvs =>
    wfUsage ((dictGet mkvs "usage").getD (.obj [])) &&
    keyOk ((dictGet mkvs "model").getD (.str "unknown")) &&
    (match (dictGet mkvs "content").getD (.arr []) with
     | .arr bs => bs.all taskBlockOk
     | _ => true)
  | _ => false

/-- A content block of a user record is well-shaped: a `"text"`-typed
dict block must carry a string under `"text"`. -/
def textBlockOk : J → Bool
  | .obj kvs =>
    if jEqStr ((dictGet kvs "type").getD .null) "text" then
      match dictGet kvs "text" with
      | some (.str _) => true
      | _ => false
    else true
  | _ => true

/-- The `message` of a user record is well-shaped. -/
def wfUserMsg : J → Bool
  | .obj mkvs =>
    (match (dictGet mkvs "content").getD (.str "") with
     | .str _ => true
     | .arr bs => bs.all textBlockOk
     | _ => true)
  | _ => false

/-- A decoded line is a well-shaped record. -/
def wfRecord : J → Bool
  | .obj kvs =>
    (if jEqStr ((dictGet kvs "type").getD .null) "user" then
      wfUserMsg ((dictGet kvs "message").getD (.obj [])) else true) &&
    (if jEqStr ((dictGet kvs "type").getD .null) "assistant" then
      wfAssistantMsg ((dictGet kvs "message").getD (.obj [])) else true)
  | _ => false

/-! ## C5: first and last timestamps -/

/-- The `timestamp` value of a decoded record (`data.get("timestamp")`,
line 218). -/
def tsOf (j : J) : J :=
  match j with
  | .obj kvs => (dictGet kvs "timestamp").getD .null
  | _ => .null

/-- The truthy timestamps of the decoded records, in log order. -/
def truthyTss (lines : List LogLine) : List J :=
  ((lines.filterMap id).map tsOf).filter truthy

/-- A record carrying only a timestamp. -/
def tsRec (ts : String) : J := .obj [("timestamp", .str ts)]

def c5Lines : List LogLine :=
  [some (tsRec "2024-02-02T00:00:00Z"), some (tsRec "2024-01-01T00:00:00Z")]

def c5State : ParseState := okState (parseLines c5Lines)

/-! ## C9: workflow detection -/

/-- The workflow hit that one text value yields (lines 242-243): its
FIRST command-name marker, if that names a tracked workflow. -/
def textHit (t : J) : Option (String × String) :=
  match t with
  | .str s =>
    let d := detectWorkflowFromText s
    if d.1 != "" && TRACKED_WORKFLOWS.contains d.1 then some d else none
  | _ => none

/-- The first hit in a text stream. -/
def firstHit : List J → Option (String × String)
  | [] => none
  | t :: ts =>
    match textHit t with
    | some d => some d
    | none => firstHit ts

/-- The `"text"` field contributed by a content block (lines 234-235). -/
def blockText (b : J) : Option J :=
  match b with
  | .obj kvs =>
    if jEqStr ((dictGet kvs "type").getD .null) "text" then dictGet kvs "text"
    else none
  | _ => none

/-- The texts a content value contributes. -/
def contentTexts : J → List J
  | .str s => [J.str s]
  | .arr bs => bs.filterMap blockText
  | _ => []

/-- The texts a `message` value contributes. -/
def msgTexts : J → List J
  | .obj mkvs => contentTexts ((dictGet mkvs "content").getD (.str ""))
  | _ => []

/-- The user texts a decoded record contributes. -/
def recordTexts (j : J) : List J :=
  match j with
  | .obj kvs =>
    if jEqStr ((dictGet kvs "type").getD .null) "user" then
      msgTexts ((dictGet kvs "message").getD (.obj []))
    else []
  | _ => []

/-- All user texts of the decoded records, in log order. -/
def allTexts : List LogLine → List J
  | [] => []
  | none :: rest => allTexts rest
  | some j :: rest => recordTexts j ++ allTexts rest

/-- A user record whose content is the single string `txt`. -/
def userRec (txt : String) : J :=
  .obj [("type", .str "user"), ("message", .obj [("content", .str txt)])]

/-- A user text whose FIRST command marker names an untracked command,
followed by a marker naming the tracked workflow `ecc-e2e`. -/
def badText : String :=
  "<command-name>/foo</command-name><command-name>/ecc-e2e</command-name>"

/-- The lock-in scenario: the first user message invokes
`ecc-dev-story`, a later one invokes `ecc-e2e`. -/
def scen9 : List LogLine :=
  [some (userRec "<command-name>/ecc-dev-story</command-name>"),
   some (userRec "<command-name>/ecc-e2e</command-name>")]

/-! ## C6 and C7: the statistics engine -/

/-- A tracking-CSV row used by the statistics scenarios. -/
def mkRow (sid : String) (c : ℚ) : Row :=
  { date := "2026-01-20", session_id := sid, workflow := "", models := "sonnet",
    total_cost := c }

/-- The most recent, $5.00 record of the C6 scenario. -/
def r20 : Row := mkRow "s20" 5

/-- The C6 history: twenty records, nineteen at $1.00 and the most
recent at $5.00. -/
def history20 : List Row := List.replicate 19 (mkRow "s" 1) ++ [r20]

/-- The sorted cost list of `history20`. -/
def sorted20 : List ℚ :=
  [1, 1, 1, 1, 1, 1, 1, 1, 1, 1, 1, 1, 1, 1, 1, 1, 1, 1, 1, 5]

/-- The empty statistics record (only used to name the payload of a
known-`some` `genStats` result). -/
def emptyStats : Stats :=
  { total_sessions := 0, total_cost := 0, avg_overall := 0, avg_last_10 := 0,
    avg_last_20 := 0, p50 := 0, p75 := 0, p90 := 0, p95 := 0, warning := 0,
    high := 0, trend := none, recent_outliers := [], by_model := [],
    by_workflow := [] }

/-- The C7 history: one zero-cost row and nine $1.00 rows. -/
def c7Rows : List Row := mkRow "s0" 0 :: List.replicate 9 (mkRow "s" 1)

/-! # Theorems -/

theorem ebind_ok {α β : Type} (a : α) (f : α → Except PyErr β) :
    ebind (.ok a) f = f a := rfl

theorem ebind_error {α β : Type} (e : PyErr) (f : α → Except PyErr β) :
    ebind (.error e) f = .error e := rfl

/-- C8: decoding `"-a-b-c-d"` against a filesystem in which exactly
the prefixes of `/a/b-c/d` exist returns `/a/b-c/d`: the greedy walk
re-joins the segment `b-c` because `/a/b` does not exist while
`/a/b-c` does. -/
theorem c8_decode_round_trip :
    decodeProjectPath ex8 "-a-b-c-d" = ["a", "b-c", "d"] ∧
      ex8 ["a", "b"] = false ∧ ex8 ["a", "b-c"] = true := by
  refine ⟨by decide, by decide, by decide⟩

/-- C1 counterexample: the default (fallback) rates are NOT an upper
bound over the pricing table — `claude-opus-4-1-20250805` has a
strictly higher input rate than the default, and a one-input-token
aggregate for an unknown model is billed strictly below what that
known model's rates assign to the same counters. -/
theorem c1_counterexample :
    DEFAULT_PRICING.input < (pricingFor "claude-opus-4-1-20250805").input ∧
      calculate_cost [(J.str "mystery-model", oneInputToken)] <
        costWith (pricingFor "claude-opus-4-1-20250805") oneInputToken := by
  have h41 : pricingFor "claude-opus-4-1-20250805" =
      { input := 15, output := 75, cache_5m := 18.75, cache_1h := 30,
        cache_read := 1.5 } := rfl
  have hcost : calculate_cost [(J.str "mystery-model", oneInputToken)] =
      0 + costWith DEFAULT_PRICING oneInputToken := by
    have hkey : pricingForKey (J.str "mystery-model") = DEFAULT_PRICING := rfl
    simp [calculate_cost, hkey]
  constructor
  · rw [h41]
    norm_num [DEFAULT_PRICING, opus46Pricing]
  · rw [hcost, h41]
    norm_num [costWith, DEFAULT_PRICING, opus46Pricing, oneInputToken]

theorem costWith_mono (p q : Pricing) (t : Tokens)
    (h1 : p.input ≤ q.input) (h2 : p.output ≤ q.output)
    (h3 : p.cache_5m ≤ q.cache_5m) (h4 : p.cache_1h ≤ q.cache_1h)
    (h5 : p.cache_read ≤ q.cache_read)
    (t1 : 0 ≤ t.input) (t2 : 0 ≤ t.output) (t3 : 0 ≤ t.cache_5m)
    (t4 : 0 ≤ t.cache_1h) (t5 : 0 ≤ t.cache_read) :
    costWith p t ≤ costWith q t := by
  have key : ∀ (a : Int) (r s : ℚ), 0 ≤ a → r ≤ s →
      (a : ℚ) * r / 1000000 ≤ (a : ℚ) * s / 1000000 := by
    intro a r s ha hrs
    apply (div_le_div_iff_of_pos_right (by norm_num)).mpr
    exact mul_le_mul_of_nonneg_left hrs (by exact_mod_cast ha)
  exact add_le_add (add_le_add (add_le_add (add_le_add
    (key _ _ _ t1 h1) (key _ _ _ t2 h2)) (key _ _ _ t3 h3))
    (key _ _ _ t4 h4)) (key _ _ _ t5 h5)

/-- C1 amended: the default rates dominate the rates of every model in
the pricing table EXCEPT `claude-opus-4-1-20250805` (whose five rates
all exceed the default), and consequently, for every aggregate with
non-negative counters, the cost computed with the default rates is at
least the cost under any such model's rates. -/
theorem c1_default_dominates_except_opus41 (name : String) (p : Pricing)
    (hmem : (name, p) ∈ MODEL_PRICING)
    (hne : name ≠ "claude-opus-4-1-20250805") :
    (p.input ≤ DEFAULT_PRICING.input ∧ p.output ≤ DEFAULT_PRICING.output ∧
      p.cache_5m ≤ DEFAULT_PRICING.cache_5m ∧
      p.cache_1h ≤ DEFAULT_PRICING.cache_1h ∧
      p.cache_read ≤ DEFAULT_PRICING.cache_read) ∧
    ∀ t : Tokens, 0 ≤ t.input → 0 ≤ t.output → 0 ≤ t.cache_5m →
      0 ≤ t.cache_1h → 0 ≤ t.cache_read →
      costWith p t ≤ costWith DEFAULT_PRICING t := by
  have rates : p.input ≤ DEFAULT_PRICING.input ∧ p.output ≤ DEFAULT_PRICING.output ∧
      p.cache_5m ≤ DEFAULT_PRICING.cache_5m ∧
      p.cache_1h ≤ DEFAULT_PRICING.cache_1h ∧
      p.cache_read ≤ DEFAULT_PRICING.cache_read := by
    simp only [List.mem_cons, MODEL_PRICING, opus46Pricing, List.not_mem_nil,
      Prod.mk.injEq, or_false] at hmem
    rcases hmem with ⟨h, hp⟩ | ⟨h, hp⟩ | ⟨h, hp⟩ | ⟨h, hp⟩ | ⟨h, hp⟩
    · subst hp; norm_num [DEFAULT_PRICING, opus46Pricing]
    · subst hp; norm_num [DEFAULT_PRICING, opus46Pricing]
    · exact absurd h hne
    · subst hp; norm_num [DEFAULT_PRICING, opus46Pricing]
    · subst hp; norm_num [DEFAULT_PRICING, opus46Pricing]
  refine ⟨rates, fun t t1 t2 t3 t4 t5 => ?_⟩
  exact costWith_mono p DEFAULT_PRICING t rates.1 rates.2.1 rates.2.2.1
    rates.2.2.2.1 rates.2.2.2.2 t1 t2 t3 t4 t5

/-- Closed witness for the C1 amended theorem, at the sonnet row of the
pricing table and an all-ones aggregate. -/
theorem c1_witness :
    costWith
        { input := 3, output := 15, cache_5m := 3.75, cache_1h := 6,
          cache_read := 0.3 }
        { input := 1, output := 1, cache_5m := 1, cache_1h := 1, cache_read := 1,
          messages := 1 } ≤
      costWith DEFAULT_PRICING
        { input := 1, output := 1, cache_5m := 1, cache_1h := 1, cache_read := 1,
          messages := 1 } := by
  have h := c1_default_dominates_except_opus41 "claude-sonnet-4-5-20250929"
    { input := 3, output := 15, cache_5m := 3.75, cache_1h := 6, cache_read := 0.3 }
    (List.mem_cons_of_mem _ (List.mem_cons_of_mem _ (List.mem_cons_of_mem _
      (List.mem_cons_self _ _))))
    (by decide)
  exact h.2 _ (by decide) (by decide) (by decide) (by decide) (by decide)

/-! ## C3 and C10: the percentile helper -/

theorem sorted_head_le (l : List ℚ) (h : l ≠ []) (hs : l.Sorted (· ≤ ·)) :
    ∀ x ∈ l, l.head h ≤ x := by
  match l with
  | a :: t =>
    intro x hx
    rcases List.mem_cons.mp hx with rfl | hxt
    · exact le_refl _
    · exact (List.sorted_cons.mp hs).1 x hxt

theorem sorted_le_getLast (l : List ℚ) (h : l ≠ []) (hs : l.Sorted (· ≤ ·)) :
    ∀ x ∈ l, x ≤ l.getLast h := by
  induction l with
  | nil => exact absurd rfl h
  | cons a t ih =>
    intro x hx
    cases t with
    | nil =>
      have hxa : x = a := by simpa using hx
      subst hxa
      simp [List.getLast]
    | cons b t' =>
      rw [List.getLast_cons (by simp)]
      rcases List.mem_cons.mp hx with rfl | hxt
      · exact (List.sorted_cons.mp hs).1 _ (List.getLast_mem (by simp))
      · exact ih (by simp) (List.sorted_cons.mp hs).2 x hxt

theorem percentileF_eq_floor (data : List ℚ) (p : ℚ) (hd : data ≠ [])
    (hp0 : 0 ≤ p) :
    percentileF data p = ⌊(p / 100) * ((data.length : ℚ) - 1)⌋ := by
  have hn : (1 : ℚ) ≤ (data.length : ℚ) := by
    exact_mod_cast Nat.one_le_iff_ne_zero.mpr
      (fun h0 => hd (List.length_eq_zero.mp h0))
  have hk : 0 ≤ (p / 100) * ((data.length : ℚ) - 1) :=
    mul_nonneg (div_nonneg hp0 (by norm_num)) (by linarith)
  simp [percentileF, pyInt, hk]

theorem percentileF_lt_length (data : List ℚ) (p : ℚ) (hd : data ≠ [])
    (hp0 : 0 ≤ p) (hp1 : p ≤ 100) :
    percentileF data p < (data.length : ℤ) := by
  have hn : (1 : ℚ) ≤ (data.length : ℚ) := by
    exact_mod_cast Nat.one_le_iff_ne_zero.mpr
      (fun h0 => hd (List.length_eq_zero.mp h0))
  have hk : (p / 100) * ((data.length : ℚ) - 1) ≤ (data.length : ℚ) - 1 := by
    have h1 : p / 100 ≤ 1 := (div_le_one (by norm_num)).mpr hp1
    have h2 : (0 : ℚ) ≤ (data.length : ℚ) - 1 := by linarith
    nlinarith
  rw [percentileF_eq_floor data p hd hp0]
  have hb : ⌊(p / 100) * ((data.length : ℚ) - 1)⌋ ≤ (data.length : ℤ) - 1 :=
    calc ⌊(p / 100) * ((data.length : ℚ) - 1)⌋
        ≤ ⌊((data.length : ℚ) - 1)⌋ := Int.floor_le_floor hk
      _ = (data.length : ℤ) - 1 := by
          rw [show ((data.length : ℚ) - 1) = (((data.length : ℤ) - 1 : ℤ) : ℚ) by
            push_cast; ring]
          exact Int.floor_intCast _
  omega

/-- C3: on a non-empty sorted list and `0 ≤ p ≤ 100`, `percentile`
returns `v[⌊k⌋] + (k − ⌊k⌋)·(v[⌈k⌉] − v[⌊k⌋])` for
`k = p/100·(n−1)`; in particular `percentile(·, 50)` on an odd-length
sorted list is the middle element, `percentile(·, 0)` is the minimum
(the head, which bounds every element from below) and
`percentile(·, 100)` is the maximum (the last element, which bounds
every element from above). -/
theorem c3_percentile_formula (data : List ℚ) (p : ℚ) (hd : data ≠ [])
    (hs : data.Sorted (· ≤ ·)) (hp0 : 0 ≤ p) (hp1 : p ≤ 100) :
    (percentile data p =
      qIdx data ⌊(p / 100) * ((data.length : ℚ) - 1)⌋ +
        ((p / 100) * ((data.length : ℚ) - 1) -
          (⌊(p / 100) * ((data.length : ℚ) - 1)⌋ : ℚ)) *
        (qIdx data ⌈(p / 100) * ((data.length : ℚ) - 1)⌉ -
          qIdx data ⌊(p / 100) * ((data.length : ℚ) - 1)⌋)) ∧
    (data.length % 2 = 1 → percentile data 50 = data.getD (data.length / 2) 0) ∧
    (percentile data 0 = data.head hd ∧ ∀ x ∈ data, data.head hd ≤ x) ∧
    (percentile data 100 = data.getLast hd ∧ ∀ x ∈ data, x ≤ data.getLast hd) := by
  have hn : (1 : ℚ) ≤ (data.length : ℚ) := by
    exact_mod_cast Nat.one_le_iff_ne_zero.mpr
      (fun h0 => hd (List.length_eq_zero.mp h0))
  refine ⟨?_, ?_, ⟨?_, sorted_head_le data hd hs⟩,
    ⟨?_, sorted_le_getLast data hd hs⟩⟩
  · -- the interpolation formula
    have hf := percentileF_eq_floor data p hd hp0
    by_cases hint :
        ((⌊(p / 100) * ((data.length : ℚ) - 1)⌋ : ℚ) =
          (p / 100) * ((data.length : ℚ) - 1))
    · have hzero : (p / 100) * ((data.length : ℚ) - 1) -
          (⌊(p / 100) * ((data.length : ℚ) - 1)⌋ : ℚ) = 0 := by
        rw [hint]; ring
      simp only [percentile, hf]
      rw [hzero]
      ring
    · have hlt : (⌊(p / 100) * ((data.length : ℚ) - 1)⌋ : ℚ) <
          (p / 100) * ((data.length : ℚ) - 1) :=
        lt_of_le_of_ne (Int.floor_le _) hint
      have hceil : ⌈(p / 100) * ((data.length : ℚ) - 1)⌉ =
          ⌊(p / 100) * ((data.length : ℚ) - 1)⌋ + 1 := by
        have h1 : ⌊(p / 100) * ((data.length : ℚ) - 1)⌋ <
            ⌈(p / 100) * ((data.length : ℚ) - 1)⌉ := by
          exact_mod_cast lt_of_lt_of_le hlt (Int.le_ceil _)
        have h2 := Int.ceil_le_floor_add_one ((p / 100) * ((data.length : ℚ) - 1))
        omega
      have hkle : (p / 100) * ((data.length : ℚ) - 1) ≤ (data.length : ℚ) - 1 := by
        have h1 : p / 100 ≤ 1 := (div_le_one (by norm_num)).mpr hp1
        have h2 : (0 : ℚ) ≤ (data.length : ℚ) - 1 := by linarith
        nlinarith
      have hfloorle : ⌊(p / 100) * ((data.length : ℚ) - 1)⌋ ≤ (data.length : ℤ) - 1 :=
        calc ⌊(p / 100) * ((data.length : ℚ) - 1)⌋
            ≤ ⌊((data.length : ℚ) - 1)⌋ := Int.floor_le_floor hkle
          _ = (data.length : ℤ) - 1 := by
              rw [show ((data.length : ℚ) - 1) = (((data.length : ℤ) - 1 : ℤ) : ℚ) by
                push_cast; ring]
              exact Int.floor_intCast _
      have hfne : ⌊(p / 100) * ((data.length : ℚ) - 1)⌋ ≠ (data.length : ℤ) - 1 := by
        intro heq
        have : ((data.length : ℚ) - 1) ≤ (⌊(p / 100) * ((data.length : ℚ) - 1)⌋ : ℚ) := by
          rw [heq]; push_cast; linarith
        linarith
      have hc : percentileC data p = percentileF data p + 1 := by
        unfold percentileC
        rw [if_pos]
        rw [hf]; omega
      simp only [percentile, hf, hc, hceil]
  · -- p = 50 on an odd-length list
    intro hodd
    obtain ⟨m, hm⟩ : ∃ m, data.length = 2 * m + 1 :=
      ⟨data.length / 2, by omega⟩
    have hk50 : ((50 : ℚ) / 100) * ((data.length : ℚ) - 1) = ((m : ℤ) : ℚ) := by
      rw [hm]; push_cast; ring
    have hf50 : percentileF data 50 = (m : ℤ) := by
      rw [percentileF_eq_floor data 50 hd (by norm_num), hk50]
      exact Int.floor_intCast _
    simp only [percentile, hf50, hk50]
    have : ((m : ℤ) : ℚ) - ((m : ℤ) : ℚ) = 0 := by ring
    rw [this]
    have hidx : ((m : ℤ)).toNat = data.length / 2 := by omega
    simp only [qIdx, hidx]
    ring
  · -- p = 0 is the head
    have hk0 : ((0 : ℚ) / 100) * ((data.length : ℚ) - 1) = ((0 : ℤ) : ℚ) := by
      push_cast; ring
    have hf0 : percentileF data 0 = 0 := by
      rw [percentileF_eq_floor data 0 hd (le_refl 0), hk0]
      exact Int.floor_intCast _
    simp only [percentile, hf0, hk0]
    have : ((0 : ℤ) : ℚ) - ((0 : ℤ) : ℚ) = 0 := by ring
    rw [this]
    match data, hd with
    | a :: t, _ => simp [qIdx]
  · -- p = 100 is the last element
    have hk100 : ((100 : ℚ) / 100) * ((data.length : ℚ) - 1) =
        (((data.length : ℤ) - 1 : ℤ) : ℚ) := by push_cast; ring
    have hf100 : percentileF data 100 = (data.length : ℤ) - 1 := by
      rw [percentileF_eq_floor data 100 hd (by norm_num), hk100]
      exact Int.floor_intCast _
    simp only [percentile, hf100, hk100]
    have hz : ((((data.length : ℤ) - 1 : ℤ)) : ℚ) -
        ((((data.length : ℤ) - 1 : ℤ)) : ℚ) = 0 := by ring
    rw [hz]
    have hlen1 : 1 ≤ data.length := by exact_mod_cast hn
    have hidx : ((data.length : ℤ) - 1).toNat = data.length - 1 := by omega
    have hlt : data.length - 1 < data.length := by omega
    simp only [qIdx, hidx]
    rw [List.getLast_eq_getElem data hd,
      List.getD_eq_getElem?_getD, List.getElem?_eq_getElem hlt]
    simp

/-- Closed witness for C3: the median of `[1, 2, 3, 4, 5]` is exactly
the middle element `3`. -/
theorem c3_witness : percentile [1, 2, 3, 4, 5] 50 = 3 := by
  have h := c3_percentile_formula [1, 2, 3, 4, 5] 50 (by decide) (by decide)
    (by norm_num) (by norm_num)
  have h2 := h.2.1 (by decide)
  rw [h2]
  rfl

/-- C10: the index arithmetic of the percentile helper stays in
bounds — for every non-empty `data` and `0 ≤ p ≤ 100`, the indices
`f = int(k)` and `c` satisfy `0 ≤ f ≤ c < len(data)`, so neither list
access is out of range. -/
theorem c10_percentile_indices_in_bounds (data : List ℚ) (p : ℚ)
    (hd : data ≠ []) (hp0 : 0 ≤ p) (hp1 : p ≤ 100) :
    0 ≤ percentileF data p ∧ percentileF data p ≤ percentileC data p ∧
      percentileC data p < (data.length : ℤ) := by
  have hn : (1 : ℚ) ≤ (data.length : ℚ) := by
    exact_mod_cast Nat.one_le_iff_ne_zero.mpr
      (fun h0 => hd (List.length_eq_zero.mp h0))
  have hf0 : 0 ≤ percentileF data p := by
    rw [percentileF_eq_floor data p hd hp0]
    exact Int.floor_nonneg.mpr
      (mul_nonneg (div_nonneg hp0 (by norm_num)) (by linarith))
  have hfn := percentileF_lt_length data p hd hp0 hp1
  refine ⟨hf0, ?_, ?_⟩ <;> unfold percentileC <;> split <;> omega

/-- Closed witness for C10: a singleton list at `p = 100`. -/
theorem c10_witness :
    0 ≤ percentileF [(7 : ℚ)] 100 ∧
      percentileF [(7 : ℚ)] 100 ≤ percentileC [(7 : ℚ)] 100 ∧
      percentileC [(7 : ℚ)] 100 < (([(7 : ℚ)].length : ℤ)) :=
  c10_percentile_indices_in_bounds [(7 : ℚ)] 100 (by decide) (by norm_num)
    (by norm_num)

/-- C2 counterexample: parsing the scenario log yields the merged
totals 2000/1000 as claimed, but the identifier `"sonnet"` is not a
key of `MODEL_PRICING`, so `calculate_cost` bills it at the default
(opus) rates: the total is $0.035 = 7/200, not the claimed
$0.021 = 21/1000. -/
theorem c2_counterexample :
    parseLines c2Lines = .ok c2State ∧
      totalInput c2State.tokens_by_model = 2000 ∧
      totalOutput c2State.tokens_by_model = 1000 ∧
      calculate_cost c2State.tokens_by_model = 7 / 200 ∧
      (7 / 200 : ℚ) ≠ 21 / 1000 := by
  refine ⟨rfl, rfl, rfl, ?_, by norm_num⟩
  have hkey : pricingForKey (J.str "sonnet") = DEFAULT_PRICING := rfl
  rw [show calculate_cost c2State.tokens_by_model =
      0 + costWith (pricingForKey (J.str "sonnet"))
        { input := 2000, output := 1000, cache_5m := 0, cache_1h := 0,
          cache_read := 0, messages := 2 } from rfl, hkey]
  norm_num [costWith, DEFAULT_PRICING, opus46Pricing]

/-- C2 amended: with the model identifier
`"claude-sonnet-4-5-20250929"` (the pricing-table key for Sonnet 4.5),
the scenario parses to total input 2000 and total output 1000, and the
cost is exactly 2000×3.00/1e6 + 1000×15.00/1e6 = $0.021 = 21/1000.
With the literal identifier `"sonnet"` the cost is instead the default
(opus) rate total $0.035. -/
theorem c2_merged_totals_and_cost :
    parseLines c2LinesFull = .ok c2StateFull ∧
      totalInput c2StateFull.tokens_by_model = 2000 ∧
      totalOutput c2StateFull.tokens_by_model = 1000 ∧
      calculate_cost c2StateFull.tokens_by_model = 21 / 1000 := by
  refine ⟨rfl, rfl, rfl, ?_⟩
  have hkey : pricingForKey (J.str "claude-sonnet-4-5-20250929") =
      { input := 3, output := 15, cache_5m := 3.75, cache_1h := 6,
        cache_read := 0.3 } := rfl
  rw [show calculate_cost c2StateFull.tokens_by_model =
      0 + costWith (pricingForKey (J.str "claude-sonnet-4-5-20250929"))
        { input := 2000, output := 1000, cache_5m := 0, cache_1h := 0,
          cache_read := 0, messages := 2 } from rfl, hkey]
  norm_num [costWith]

theorem userBlocks_ok_ex :
    ∀ (bs : List J), bs.all textBlockOk = true →
    ∀ (fum : J) (texts : List J), (∀ t ∈ texts, ∃ u, t = J.str u) →
    ∃ ts' fum', userBlocks fum texts bs = .ok (ts', fum') ∧
      ∀ t ∈ ts', ∃ u, t = J.str u := by
  intro bs
  induction bs with
  | nil => exact fun _ fum texts hstr => ⟨texts, fum, rfl, hstr⟩
  | cons b bs ih =>
    intro hall fum texts hstr
    rw [List.all_cons, Bool.and_eq_true] at hall
    obtain ⟨hb, hbs⟩ := hall
    match b with
    | .null => exact ih hbs fum texts hstr
    | .bool v => exact ih hbs fum texts hstr
    | .num v => exact ih hbs fum texts hstr
    | .str v => exact ih hbs fum texts hstr
    | .arr v => exact ih hbs fum texts hstr
    | .obj kvs =>
      by_cases htype : jEqStr ((dictGet kvs "type").getD .null) "text"
      · have hb' := hb
        simp only [textBlockOk, htype, if_true] at hb'
        cases hget : dictGet kvs "text" with
        | none => rw [hget] at hb'; exact absurd hb' (by simp)
        | some tj =>
          rw [hget] at hb'
          match tj with
          | .str u =>
            have happ : ∀ t ∈ texts ++ [J.str u], ∃ w, t = J.str w := by
              intro t ht
              rcases List.mem_append.mp ht with h1 | h2
              · exact hstr t h1
              · exact ⟨u, by simpa using h2⟩
            by_cases hfum : truthy fum
            · obtain ⟨ts', fum', heq, hall'⟩ :=
                ih hbs fum (texts ++ [J.str u]) happ
              exact ⟨ts', fum', by
                simp only [userBlocks, htype, if_true, hget, hfum]
                exact heq, hall'⟩
            · obtain ⟨ts', fum', heq, hall'⟩ :=
                ih hbs (J.str (u.take 150)) (texts ++ [J.str u]) happ
              exact ⟨ts', fum', by
                simp only [userBlocks, htype, if_true, hget, hfum,
                  Bool.false_eq_true, if_false, pySlice150, ebind_ok]
                exact heq, hall'⟩
          | .null => exact absurd hb' (by simp)
          | .bool v => exact absurd hb' (by simp)
          | .num v => exact absurd hb' (by simp)
          | .arr v => exact absurd hb' (by simp)
          | .obj v => exact absurd hb' (by simp)
      · obtain ⟨ts', fum', heq, hall'⟩ := ih hbs fum texts hstr
        exact ⟨ts', fum', by
          simp only [userBlocks, htype, Bool.false_eq_true, if_false]
          exact heq, hall'⟩

theorem detectLoop_ok_ex :
    ∀ (ts : List J), (∀ t ∈ ts, ∃ u, t = J.str u) →
    ∃ r, detectLoop ts = .ok r := by
  intro ts
  induction ts with
  | nil => exact fun _ => ⟨none, rfl⟩
  | cons t ts ih =>
    intro h
    obtain ⟨u, rfl⟩ := h t (List.mem_cons_self t ts)
    simp only [detectLoop]
    split
    · exact ⟨_, rfl⟩
    · exact ih (fun x hx => h x (List.mem_cons_of_mem _ hx))

theorem detectInTexts_ok_ex (dwf dst : String) (tf : List J × J)
    (hall : ∀ t ∈ tf.1, ∃ u, t = J.str u) :
    ∃ r, detectInTexts dwf dst tf = .ok r := by
  unfold detectInTexts
  by_cases hdwf : (dwf == "") = true
  · simp only [hdwf, if_true]
    obtain ⟨r, hr⟩ := detectLoop_ok_ex tf.1 hall
    rw [hr]
    simp only [ebind_ok]
    match r with
    | some d => exact ⟨_, rfl⟩
    | none => exact ⟨_, rfl⟩
  · simp only [hdwf, Bool.false_eq_true, if_false]
    exact ⟨_, rfl⟩

theorem userStep_ok_ex (kvs : List (String × J))
    (h : wfUserMsg ((dictGet kvs "message").getD (.obj [])) = true)
    (fum : J) (dwf dst : String) :
    ∃ r, userStep fum dwf dst (J.obj kvs) = .ok r := by
  simp only [userStep, pyGet, ebind_ok]
  match hmsg : (dictGet kvs "message").getD (.obj []) with
  | .null | .bool _ | .num _ | .str _ | .arr _ =>
    rw [hmsg] at h; exact absurd h (by simp [wfUserMsg])
  | .obj mkvs =>
    rw [hmsg] at h
    simp only [pyGet, ebind_ok]
    match hcont : (dictGet mkvs "content").getD (.str "") with
    | .str cs =>
      simp only [userContentTexts, ebind_ok]
      exact detectInTexts_ok_ex dwf dst _ (fun t ht => ⟨cs, by simpa using ht⟩)
    | .arr bs =>
      simp only [wfUserMsg, hcont] at h
      obtain ⟨ts', fum', heq, hall⟩ := userBlocks_ok_ex bs h fum []
        (fun t ht => absurd ht (List.not_mem_nil t))
      simp only [userContentTexts]
      rw [heq]
      simp only [ebind_ok]
      exact detectInTexts_ok_ex dwf dst (ts', fum') hall
    | .null =>
      simp only [userContentTexts, ebind_ok]
      exact detectInTexts_ok_ex dwf dst _
        (fun t ht => absurd ht (List.not_mem_nil t))
    | .bool _ =>
      simp only [userContentTexts, ebind_ok]
      exact detectInTexts_ok_ex dwf dst _
        (fun t ht => absurd ht (List.not_mem_nil t))
    | .num _ =>
      simp only [userContentTexts, ebind_ok]
      exact detectInTexts_ok_ex dwf dst _
        (fun t ht => absurd ht (List.not_mem_nil t))
    | .obj _ =>
      simp only [userContentTexts, ebind_ok]
      exact detectInTexts_ok_ex dwf dst _
        (fun t ht => absurd ht (List.not_mem_nil t))

theorem asKey_ok_of_keyOk (m : J) (h : keyOk m = true) : asKey m = .ok m := by
  match m with
  | .null => rfl
  | .bool _ => rfl
  | .num _ => rfl
  | .str _ => rfl
  | .arr _ => exact absurd h (by simp [keyOk])
  | .obj _ => exact absurd h (by simp [keyOk])

theorem asNum_okD (kvs : List (String × J)) (k : String)
    (h : numOk kvs k = true) (d : Int) :
    ∃ n, asNum ((dictGet kvs k).getD (.num d)) = .ok n := by
  match hget : dictGet kvs k with
  | none => exact ⟨d, rfl⟩
  | some v =>
    rw [numOk, hget] at h
    match v with
    | .num n => exact ⟨n, rfl⟩
    | .bool b => exact ⟨if b then 1 else 0, rfl⟩
    | .null => exact absurd h (by simp)
    | .str _ => exact absurd h (by simp)
    | .arr _ => exact absurd h (by simp)
    | .obj _ => exact absurd h (by simp)

theorem taskBlocks_ok_ex :
    ∀ (bs : List J), bs.all taskBlockOk = true →
    ∀ acc, ∃ r, taskBlocks acc bs = .ok r := by
  intro bs
  induction bs with
  | nil => exact fun _ acc => ⟨acc, rfl⟩
  | cons b bs ih =>
    intro hall acc
    rw [List.all_cons, Bool.and_eq_true] at hall
    obtain ⟨hb, hbs⟩ := hall
    match b with
    | .null | .bool _ | .num _ | .str _ | .arr _ => exact ih hbs acc
    | .obj kvs =>
      by_cases hguard : (jEqStr ((dictGet kvs "type").getD .null) "tool_use" &&
          jEqStr ((dictGet kvs "name").getD .null) "Task") = true
      · rw [taskBlockOk, if_pos hguard] at hb
        match hinp : (dictGet kvs "input").getD (.obj []) with
        | .obj ikvs =>
          obtain ⟨r, hr⟩ := ih hbs _
          exact ⟨r, by simp only [taskBlocks, hguard, if_true, hinp]; exact hr⟩
        | .null | .bool _ | .num _ | .str _ | .arr _ =>
          rw [hinp] at hb; exact absurd hb (by simp)
      · obtain ⟨r, hr⟩ := ih hbs acc
        refine ⟨r, ?_⟩
        simp only [taskBlocks]
        rw [if_neg hguard]
        exact hr

theorem cacheWrite_ok_ex (ukvs : List (String × J))
    (hn4 : numOk ukvs "cache_creation_input_tokens" = true)
    (hcache : (match (dictGet ukvs "cache_creation").getD (.obj []) with
      | .obj ckvs =>
          numOk ckvs "ephemeral_5m_input_tokens" &&
          numOk ckvs "ephemeral_1h_input_tokens"
      | v => !truthy v) = true) :
    ∃ cw, cacheWrite (J.obj ukvs)
      ((dictGet ukvs "cache_creation").getD (.obj [])) = .ok cw := by
  by_cases htr : truthy ((dictGet ukvs "cache_creation").getD (.obj [])) = true
  · match hcd : (dictGet ukvs "cache_creation").getD (.obj []) with
    | .obj ckvs =>
      rw [hcd] at hcache htr
      simp only [Bool.and_eq_true] at hcache
      obtain ⟨he5, he1⟩ := hcache
      obtain ⟨w5, hw5⟩ := asNum_okD ckvs "ephemeral_5m_input_tokens" he5 0
      obtain ⟨w1, hw1⟩ := asNum_okD ckvs "ephemeral_1h_input_tokens" he1 0
      simp only [cacheWrite, htr, if_true, pyGet, ebind_ok]
      rw [hw5]
      simp only [ebind_ok]
      rw [hw1]
      exact ⟨(w5, w1), rfl⟩
    | .null | .bool _ | .num _ | .str _ | .arr _ =>
      rw [hcd] at hcache htr
      simp only [Bool.not_eq_true'] at hcache
      rw [hcache] at htr
      exact absurd htr (by simp)
  · obtain ⟨w, hw⟩ := asNum_okD ukvs "cache_creation_input_tokens" hn4 0
    simp only [cacheWrite, htr, if_false, pyGet, ebind_ok]
    rw [hw]
    exact ⟨(0, w), rfl⟩

theorem assistantStep_ok_ex (kvs : List (String × J))
    (h : wfAssistantMsg ((dictGet kvs "message").getD (.obj [])) = true)
    (tbm : List (J × Tokens)) (mc : Int) (tcs : List TaskCall) :
    ∃ r, assistantStep tbm mc tcs (J.obj kvs) = .ok r := by
  simp only [assistantStep, pyGet, ebind_ok]
  match hmsg : (dictGet kvs "message").getD (.obj []) with
  | .null | .bool _ | .num _ | .str _ | .arr _ =>
    rw [hmsg] at h; exact absurd h (by simp [wfAssistantMsg])
  | .obj mkvs =>
    rw [hmsg] at h
    rw [wfAssistantMsg] at h
    simp only [Bool.and_eq_true] at h
    obtain ⟨⟨husage, hkey⟩, hcontent⟩ := h
    simp only [pyGet, ebind_ok]
    match husg : (dictGet mkvs "usage").getD (.obj []) with
    | .null | .bool _ | .num _ | .str _ | .arr _ =>
      rw [husg] at husage; exact absurd husage (by simp [wfUsage])
    | .obj ukvs =>
      rw [husg] at husage
      rw [wfUsage] at husage
      simp only [Bool.and_eq_true] at husage
      obtain ⟨⟨⟨⟨hn1, hn2⟩, hn3⟩, hn4⟩, hcache⟩ := husage
      rw [asKey_ok_of_keyOk _ hkey]
      simp only [ebind_ok]
      obtain ⟨v1, hv1⟩ := asNum_okD ukvs "input_tokens" hn1 0
      obtain ⟨v2, hv2⟩ := asNum_okD ukvs "output_tokens" hn2 0
      obtain ⟨v3, hv3⟩ := asNum_okD ukvs "cache_read_input_tokens" hn3 0
      rw [hv1]
      simp only [ebind_ok]
      rw [hv2]
      simp only [ebind_ok]
      rw [hv3]
      simp only [ebind_ok]
      obtain ⟨cw, hcweq⟩ := cacheWrite_ok_ex ukvs hn4 hcache
      rw [hcweq]
      simp only [ebind_ok, pyGet]
      match hcont : (dictGet mkvs "content").getD (.arr []) with
      | .arr bs =>
        rw [hcont] at hcontent
        obtain ⟨r, hr⟩ := taskBlocks_ok_ex bs hcontent tcs
        simp only [scanTasks]
        rw [hr]
        exact ⟨_, rfl⟩
      | .null => exact ⟨_, rfl⟩
      | .bool _ => exact ⟨_, rfl⟩
      | .num _ => exact ⟨_, rfl⟩
      | .str _ => exact ⟨_, rfl⟩
      | .obj _ => exact ⟨_, rfl⟩

theorem processRecord_ok_ex (j : J) (h : wfRecord j = true) (s : ParseState) :
    ∃ s', processRecord s j = .ok s' := by
  match j with
  | .null | .bool _ | .num _ | .str _ | .arr _ =>
    exact absurd h (by simp [wfRecord])
  | .obj kvs =>
    rw [wfRecord] at h
    rw [Bool.and_eq_true] at h
    obtain ⟨huser, hassist⟩ := h
    simp only [processRecord, pyGet, ebind_ok]
    by_cases htu : jEqStr ((dictGet kvs "type").getD .null) "user"
    · rw [htu] at huser
      simp only [if_true] at huser
      obtain ⟨u, hu⟩ := userStep_ok_ex kvs huser _ _ _
      simp only [htu, if_true]
      rw [hu]
      simp only [ebind_ok]
      by_cases hta : jEqStr ((dictGet kvs "type").getD .null) "assistant"
      · rw [hta] at hassist
        simp only [if_true] at hassist
        obtain ⟨a, ha⟩ := assistantStep_ok_ex kvs hassist _ _ _
        simp only [hta, if_true]
        rw [ha]
        exact ⟨_, rfl⟩
      · simp only [hta, Bool.false_eq_true, if_false]
        exact ⟨_, rfl⟩
    · simp only [htu, Bool.false_eq_true, if_false, ebind_ok]
      by_cases hta : jEqStr ((dictGet kvs "type").getD .null) "assistant"
      · rw [hta] at hassist
        simp only [if_true] at hassist
        obtain ⟨a, ha⟩ := assistantStep_ok_ex kvs hassist _ _ _
        simp only [hta, if_true]
        rw [ha]
        exact ⟨_, rfl⟩
      · simp only [hta, Bool.false_eq_true, if_false]
        exact ⟨_, rfl⟩

theorem foldlM_stepLine_skip :
    ∀ (lines : List LogLine) (s0 : ParseState),
      List.foldlM stepLine s0 lines =
        List.foldlM stepLine s0 ((lines.filterMap id).map some) := by
  intro lines
  induction lines with
  | nil => intro s0; rfl
  | cons l rest ih =>
    intro s0
    match l with
    | none =>
      simp only [List.foldlM_cons, stepLine, List.filterMap_cons, id]
      rw [show (Except.ok s0 >>= fun s' => List.foldlM stepLine s' rest) =
        List.foldlM stepLine s0 rest from rfl]
      exact ih s0
    | some j =>
      simp only [List.foldlM_cons, stepLine, List.filterMap_cons, id,
        List.map_cons]
      cases hp : processRecord s0 j with
      | error e => rfl
      | ok s1 =>
        rw [show (Except.ok s1 >>= fun s' => List.foldlM stepLine s' rest) =
          List.foldlM stepLine s1 rest from rfl,
          show (Except.ok s1 >>= fun s' => List.foldlM stepLine s'
            ((rest.filterMap id).map some)) =
          List.foldlM stepLine s1 ((rest.filterMap id).map some) from rfl]
        exact ih s1

theorem foldlM_stepLine_ok :
    ∀ (lines : List LogLine),
      (∀ j ∈ lines.filterMap id, wfRecord j = true) →
      ∀ s0, ∃ s', List.foldlM stepLine s0 lines = .ok s' := by
  intro lines
  induction lines with
  | nil => exact fun _ s0 => ⟨s0, rfl⟩
  | cons l rest ih =>
    intro h s0
    match l with
    | none =>
      exact ih (by simpa [List.filterMap_cons] using h) s0
    | some j =>
      have hj : wfRecord j = true := h j (by simp [List.filterMap_cons])
      have hrest : ∀ x ∈ rest.filterMap id, wfRecord x = true := by
        intro x hx
        exact h x (by simp [List.filterMap_cons, hx])
      obtain ⟨s1, hs1⟩ := processRecord_ok_ex j hj s0
      obtain ⟨s', hs'⟩ := ih hrest s1
      refine ⟨s', ?_⟩
      simp only [List.foldlM_cons, stepLine, hs1]
      exact hs'

/-- C4 counterexample: the line `5` is valid JSON but not a record
object; `parse_jsonl` does not skip it — the `data.get("timestamp")`
access raises `AttributeError` and aborts the whole file — whereas
removing the line parses to the empty aggregate. -/
theorem c4_counterexample :
    parseLines [some (J.num 5)] = .error PyErr.attributeError ∧
      parseLines [] = .ok initState := ⟨rfl, rfl⟩

/-- C4 amended: the parser skips exactly the blank and JSON-undecodable
lines — the parse of any line sequence equals the parse of its decoded
records alone — and it returns an aggregate (never aborts) whenever
every decoded line is a well-shaped record object; a decodable line
that is not well-shaped (e.g. the non-object `5`) aborts the parse
with an exception instead of being skipped. -/
theorem c4_parse_skips_undecodable (lines : List LogLine) :
    parseLines lines = parseLines ((lines.filterMap id).map some) ∧
      ((∀ j ∈ lines.filterMap id, wfRecord j = true) →
        (parseLines lines).isOk = true) := by
  constructor
  · exact foldlM_stepLine_skip lines initState
  · intro h
    obtain ⟨s', hs'⟩ := foldlM_stepLine_ok lines h initState
    rw [show parseLines lines = List.foldlM stepLine initState lines from rfl,
      hs']
    rfl

/-- Closed witness for C4: a log with one undecodable line and one
well-shaped assistant record parses, and equals the parse without the
undecodable line. -/
theorem c4_witness :
    parseLines [none, some sonnetRec] = parseLines [some sonnetRec] ∧
      (parseLines [none, some sonnetRec]).isOk = true := by
  have h := c4_parse_skips_undecodable [none, some sonnetRec]
  exact ⟨h.1, h.2 (by decide)⟩

theorem tsUpdate_first_ts (s : ParseState) (ts : J) :
    (tsUpdate s ts).first_ts =
      if truthy ts && !truthy s.first_ts then ts else s.first_ts := by
  unfold tsUpdate
  by_cases hts : truthy ts = true <;> by_cases hfs : truthy s.first_ts = true <;>
    simp [hts, hfs]

theorem tsUpdate_last_ts (s : ParseState) (ts : J) :
    (tsUpdate s ts).last_ts = if truthy ts then ts else s.last_ts := by
  unfold tsUpdate
  by_cases hts : truthy ts = true <;> simp [hts]

/-- A successful `processRecord` changes `first_ts`/`last_ts` exactly
as the timestamp update prescribes: the branches after line 222 never
touch them. -/
theorem processRecord_ts (s : ParseState) (j : J) (s' : ParseState)
    (h : processRecord s j = .ok s') :
    s'.first_ts = (tsUpdate s (tsOf j)).first_ts ∧
      s'.last_ts = (tsUpdate s (tsOf j)).last_ts := by
  match j with
  | .null | .bool _ | .num _ | .str _ | .arr _ =>
    simp only [processRecord, pyGet, ebind] at h
    exact Except.noConfusion h
  | .obj kvs =>
    simp only [processRecord, pyGet, ebind_ok, tsOf] at h ⊢
    by_cases hu : jEqStr ((dictGet kvs "type").getD .null) "user" = true
    · simp only [hu, if_true] at h
      cases hus : userStep (tsUpdate s ((dictGet kvs "timestamp").getD .null)).first_user_msg
          (tsUpdate s ((dictGet kvs "timestamp").getD .null)).detected_workflow
          (tsUpdate s ((dictGet kvs "timestamp").getD .null)).detected_story
          (J.obj kvs) with
      | error e =>
        rw [hus] at h
        simp only [ebind] at h
        exact Except.noConfusion h
      | ok u =>
        rw [hus] at h
        simp only [ebind_ok] at h
        by_cases ha : jEqStr ((dictGet kvs "type").getD .null) "assistant" = true
        · simp only [ha, if_true] at h
          cases has : assistantStep _ _ _ (J.obj kvs) with
          | error e =>
            rw [has] at h
            simp only [ebind] at h
            exact Except.noConfusion h
          | ok a =>
            rw [has] at h
            simp only [ebind_ok, Except.ok.injEq] at h
            subst h
            exact ⟨rfl, rfl⟩
        · simp only [ha, Bool.false_eq_true, if_false, Except.ok.injEq] at h
          subst h
          exact ⟨rfl, rfl⟩
    · simp only [hu, Bool.false_eq_true, if_false, ebind_ok] at h
      by_cases ha : jEqStr ((dictGet kvs "type").getD .null) "assistant" = true
      · simp only [ha, if_true] at h
        cases has : assistantStep _ _ _ (J.obj kvs) with
        | error e =>
          rw [has] at h
          simp only [ebind] at h
          exact Except.noConfusion h
        | ok a =>
          rw [has] at h
          simp only [ebind_ok, Except.ok.injEq] at h
          subst h
          exact ⟨rfl, rfl⟩
      · simp only [ha, Bool.false_eq_true, if_false, Except.ok.injEq] at h
        subst h
        exact ⟨rfl, rfl⟩

theorem foldlM_ts :
    ∀ (lines : List LogLine) (s0 s' : ParseState),
      List.foldlM stepLine s0 lines = .ok s' →
      s'.first_ts = (if truthy s0.first_ts then s0.first_ts
                     else (truthyTss lines).headD s0.first_ts) ∧
        s'.last_ts = (truthyTss lines).getLastD s0.last_ts := by
  intro lines
  induction lines with
  | nil =>
    intro s0 s' h
    have h' : Except.ok s0 = Except.ok s' := h
    simp only [Except.ok.injEq] at h'
    subst h'
    simp [truthyTss, ite_self]
  | cons l rest ih =>
    intro s0 s' h
    match l with
    | none =>
      have h' : List.foldlM stepLine s0 rest = .ok s' := h
      have := ih s0 s' h'
      simpa [truthyTss, List.filterMap_cons] using this
    | some j =>
      rw [List.foldlM_cons] at h
      cases hp : processRecord s0 j with
      | error e =>
        rw [show stepLine s0 (some j) = processRecord s0 j from rfl, hp] at h
        exact Except.noConfusion (show Except.error e = Except.ok s' from h)
      | ok s1 =>
        rw [show stepLine s0 (some j) = processRecord s0 j from rfl, hp] at h
        have h' : List.foldlM stepLine s1 rest = .ok s' := h
        obtain ⟨ih1, ih2⟩ := ih s1 s' h'
        obtain ⟨hts1, hts2⟩ := processRecord_ts s0 j s1 hp
        have hTss : truthyTss (some j :: rest) =
            if truthy (tsOf j) then tsOf j :: truthyTss rest
            else truthyTss rest := by
          simp only [truthyTss, List.filterMap_cons, id, List.map_cons,
            List.filter_cons]
        rw [tsUpdate_first_ts] at hts1
        rw [tsUpdate_last_ts] at hts2
        by_cases htj : truthy (tsOf j) = true
        · rw [hTss]
          simp only [htj, if_true]
          constructor
          · by_cases hf0 : truthy s0.first_ts = true
            · rw [ih1, hts1]
              simp [hf0, htj]
            · have hs1f : s1.first_ts = tsOf j := by
                rw [hts1]
                simp [hf0, htj]
              rw [ih1, hs1f]
              simp [hf0, htj]
          · rw [ih2, hts2]
            simp only [htj, if_true, List.getLastD_cons]
        · rw [hTss]
          simp only [htj, Bool.false_eq_true, if_false]
          have hs1f : s1.first_ts = s0.first_ts := by
            rw [hts1]; simp [htj]
          have hs1l : s1.last_ts = s0.last_ts := by
            rw [hts2]; simp [htj]
          rw [ih1, ih2, hs1f, hs1l]
          exact ⟨rfl, rfl⟩

/-- C5 amended: for every line sequence whose parse succeeds,
`first_ts` is the FIRST truthy timestamp in log order and `last_ts`
the LAST one — the file order, not the minimum/maximum; they coincide
with min/max only when the timestamps appear in non-decreasing order. -/
theorem c5_first_last_in_log_order (lines : List LogLine) (s' : ParseState)
    (h : parseLines lines = .ok s') :
    s'.first_ts = (truthyTss lines).headD J.null ∧
      s'.last_ts = (truthyTss lines).getLastD J.null := by
  have hfold := foldlM_ts lines initState s' h
  simpa [initState, truthy] using hfold

/-- C5 counterexample: a log whose records carry out-of-order
timestamps.  The minimum of the timestamps seen is
`2024-01-01T00:00:00Z` and the maximum `2024-02-02T00:00:00Z`, but the
parser reports `first_ts = 2024-02-02...` (the first seen) and
`last_ts = 2024-01-01...` (the last seen) — neither min nor max. -/
theorem c5_counterexample :
    parseLines c5Lines = .ok c5State ∧
      c5State.first_ts = J.str "2024-02-02T00:00:00Z" ∧
      c5State.last_ts = J.str "2024-01-01T00:00:00Z" ∧
      "2024-01-01T00:00:00Z".toList < "2024-02-02T00:00:00Z".toList :=
  ⟨rfl, rfl, rfl, by decide⟩

/-- Closed witness for the C5 amended theorem at the two-record log. -/
theorem c5_witness :
    (okState (parseLines c5Lines)).first_ts = (truthyTss c5Lines).headD J.null := by
  have hok : parseLines c5Lines = .ok (okState (parseLines c5Lines)) := rfl
  exact (c5_first_last_in_log_order c5Lines _ hok).1

theorem textHit_fst_ne_empty (t : J) (d : String × String)
    (h : textHit t = some d) : d.1 ≠ "" := by
  match t with
  | .null | .bool _ | .num _ | .arr _ | .obj _ => exact Option.noConfusion h
  | .str s =>
    simp only [textHit] at h
    split at h
    · rename_i hguard
      rw [Bool.and_eq_true] at hguard
      obtain ⟨hne, _⟩ := hguard
      obtain rfl : detectWorkflowFromText s = d := by
        simpa using h
      exact bne_iff_ne.mp hne
    · exact Option.noConfusion h

theorem firstHit_fst_ne_empty :
    ∀ (ts : List J) (d : String × String), firstHit ts = some d → d.1 ≠ "" := by
  intro ts
  induction ts with
  | nil => exact fun d h => Option.noConfusion h
  | cons t ts ih =>
    intro d h
    simp only [firstHit] at h
    cases hx : textHit t with
    | some e =>
      rw [hx] at h
      obtain rfl : e = d := by simpa using h
      exact textHit_fst_ne_empty t _ hx
    | none =>
      rw [hx] at h
      exact ih d h

theorem firstHit_append (a b : List J) :
    firstHit (a ++ b) =
      match firstHit a with
      | some d => some d
      | none => firstHit b := by
  induction a with
  | nil => rfl
  | cons t a ih =>
    simp only [List.cons_append, firstHit]
    cases textHit t with
    | some d => rfl
    | none => exact ih

theorem detectLoop_eq_firstHit :
    ∀ (ts : List J) (r : Option (String × String)),
      detectLoop ts = .ok r → r = firstHit ts := by
  intro ts
  induction ts with
  | nil =>
    intro r h
    simpa [detectLoop, firstHit] using h.symm
  | cons t ts ih =>
    intro r h
    match t with
    | .null | .bool _ | .num _ | .arr _ | .obj _ =>
      exact Except.noConfusion h
    | .str s =>
      simp only [detectLoop] at h
      simp only [firstHit, textHit]
      split at h
      · rename_i hguard
        simp only [hguard]
        simpa using h.symm
      · rename_i hguard
        rw [Bool.not_eq_true] at hguard
        simp only [hguard]
        exact ih r h

theorem userBlocks_texts :
    ∀ (bs : List J) (fum : J) (texts ts' : List J) (fum' : J),
      userBlocks fum texts bs = .ok (ts', fum') →
      ts' = texts ++ bs.filterMap blockText := by
  intro bs
  induction bs with
  | nil =>
    intro fum texts ts' fum' h
    obtain ⟨h1, _⟩ : texts = ts' ∧ fum = fum' := by
      simpa [userBlocks] using h
    simp [h1.symm]
  | cons b bs ih =>
    intro fum texts ts' fum' h
    match b with
    | .null | .bool _ | .num _ | .str _ | .arr _ =>
      simp only [userBlocks] at h
      simp only [List.filterMap_cons, blockText]
      exact ih _ _ _ _ h
    | .obj kvs =>
      by_cases htype : jEqStr ((dictGet kvs "type").getD .null) "text" = true
      · simp only [userBlocks, htype, if_true] at h
        cases hget : dictGet kvs "text" with
        | none =>
          simp only [hget] at h
          exact Except.noConfusion h
        | some tj =>
          simp only [hget] at h
          have hbt : blockText (J.obj kvs) = some tj := by
            simp [blockText, htype, hget]
          simp only [List.filterMap_cons, hbt]
          by_cases hfum : truthy fum = true
          · simp only [hfum, if_true] at h
            have := ih _ _ _ _ h
            rw [this]
            simp
          · simp only [hfum, Bool.false_eq_true, if_false] at h
            match tj with
            | .str u =>
              simp only [pySlice150, ebind_ok] at h
              have := ih _ _ _ _ h
              rw [this]
              simp
            | .arr xs =>
              simp only [pySlice150, ebind_ok] at h
              have := ih _ _ _ _ h
              rw [this]
              simp
            | .null | .bool _ | .num _ | .obj _ =>
              simp only [pySlice150, ebind] at h
              exact Except.noConfusion h
      · simp only [userBlocks, htype, Bool.false_eq_true, if_false] at h
        have hbt : blockText (J.obj kvs) = none := by
          simp [blockText, htype]
        rw [List.filterMap_cons, hbt]
        exact ih _ _ _ _ h

theorem detectInTexts_fst (dwf dst : String) (tf : List J × J)
    (r : J × String × String) (h : detectInTexts dwf dst tf = .ok r) :
    r.2.1 = if dwf = "" then ((firstHit tf.1).map (fun d => d.1)).getD ""
            else dwf := by
  unfold detectInTexts at h
  by_cases hd : dwf = ""
  · rw [if_pos hd]
    have hdb : (dwf == "") = true := by simpa using hd
    rw [hdb] at h
    simp only [if_true] at h
    cases hdl : detectLoop tf.1 with
    | error e =>
      rw [hdl] at h
      exact Except.noConfusion h
    | ok hit =>
      rw [hdl] at h
      simp only [ebind_ok] at h
      have hfh : hit = firstHit tf.1 := detectLoop_eq_firstHit tf.1 hit hdl
      cases hit with
      | some d =>
        obtain rfl : (tf.2, d.1, d.2) = r := by simpa using h
        rw [← hfh]
        rfl
      | none =>
        obtain rfl : (tf.2, dwf, dst) = r := by simpa using h
        rw [← hfh]
        simp [hd]
  · rw [if_neg hd]
    have hdb : (dwf == "") = false := by simpa using hd
    rw [hdb] at h
    simp only [Bool.false_eq_true, if_false] at h
    obtain rfl : (tf.2, dwf, dst) = r := by simpa using h
    rfl

theorem userContentTexts_fst (fum : J) (content : J) (tf : List J × J)
    (h : userContentTexts fum content = .ok tf) :
    tf.1 = contentTexts content := by
  match content with
  | .str cs =>
    obtain rfl : ([J.str cs], if truthy fum = true then fum
        else J.str (cs.take 150)) = tf := by
      simpa [userContentTexts] using h
    rfl
  | .arr bs =>
    simp only [userContentTexts] at h
    obtain ⟨ts1, fum1⟩ := tf
    have := userBlocks_texts bs fum [] ts1 fum1 h
    simpa using this
  | .null =>
    obtain rfl : (([] : List J), fum) = tf := by
      simpa [userContentTexts] using h
    rfl
  | .bool _ =>
    obtain rfl : (([] : List J), fum) = tf := by
      simpa [userContentTexts] using h
    rfl
  | .num _ =>
    obtain rfl : (([] : List J), fum) = tf := by
      simpa [userContentTexts] using h
    rfl
  | .obj _ =>
    obtain rfl : (([] : List J), fum) = tf := by
      simpa [userContentTexts] using h
    rfl

theorem userStep_detected (kvs : List (String × J)) (fum : J) (dwf dst : String)
    (r : J × String × String)
    (h : userStep fum dwf dst (J.obj kvs) = .ok r) :
    r.2.1 = if dwf = "" then
        ((firstHit (msgTexts ((dictGet kvs "message").getD (.obj [])))).map
          (fun d => d.1)).getD ""
      else dwf := by
  simp only [userStep, pyGet, ebind_ok] at h
  match hmsg : (dictGet kvs "message").getD (.obj []) with
  | .null | .bool _ | .num _ | .str _ | .arr _ =>
    rw [hmsg] at h
    simp only [pyGet, ebind] at h
    exact Except.noConfusion h
  | .obj mkvs =>
    rw [hmsg] at h
    simp only [pyGet, ebind_ok, msgTexts] at h ⊢
    cases hct : userContentTexts fum ((dictGet mkvs "content").getD (.str ""))
        with
    | error e =>
      rw [hct] at h
      simp only [ebind] at h
      exact Except.noConfusion h
    | ok tf =>
      rw [hct] at h
      simp only [ebind_ok] at h
      have h1 := detectInTexts_fst dwf dst tf r h
      have h2 := userContentTexts_fst fum _ tf hct
      rw [h1, h2]

theorem tsUpdate_detected (s : ParseState) (ts : J) :
    (tsUpdate s ts).detected_workflow = s.detected_workflow := by
  unfold tsUpdate
  split <;> rfl

/-- A successful `processRecord` updates `detected_workflow` exactly
by first-match-wins over the record's user texts: an already-detected
label is never overwritten, and an undetected state picks up the first
per-text hit of this record's texts (if any). -/
theorem processRecord_detected (s : ParseState) (j : J) (s' : ParseState)
    (h : processRecord s j = .ok s') :
    s'.detected_workflow =
      if s.detected_workflow = "" then
        ((firstHit (recordTexts j)).map (fun d => d.1)).getD ""
      else s.detected_workflow := by
  match j with
  | .null | .bool _ | .num _ | .str _ | .arr _ =>
    simp only [processRecord, pyGet, ebind] at h
    exact Except.noConfusion h
  | .obj kvs =>
    simp only [processRecord, pyGet, ebind_ok] at h
    by_cases hu : jEqStr ((dictGet kvs "type").getD J.null) "user" = true
    · simp only [hu, if_true] at h
      cases hus : userStep (tsUpdate s ((dictGet kvs "timestamp").getD J.null)).first_user_msg
          (tsUpdate s ((dictGet kvs "timestamp").getD J.null)).detected_workflow
          (tsUpdate s ((dictGet kvs "timestamp").getD J.null)).detected_story
          (J.obj kvs) with
      | error e =>
        rw [hus] at h
        simp only [ebind] at h
        exact Except.noConfusion h
      | ok u =>
        rw [hus] at h
        simp only [ebind_ok] at h
        have hdet := userStep_detected kvs _ _ _ u hus
        rw [tsUpdate_detected] at hdet
        have hrt : recordTexts (J.obj kvs) =
            msgTexts ((dictGet kvs "message").getD (.obj [])) := by
          simp [recordTexts, hu]
        by_cases ha : jEqStr ((dictGet kvs "type").getD J.null) "assistant" = true
        · simp only [ha, if_true] at h
          cases has : assistantStep _ _ _ (J.obj kvs) with
          | error e =>
            rw [has] at h
            simp only [ebind] at h
            exact Except.noConfusion h
          | ok a =>
            rw [has] at h
            simp only [ebind_ok, Except.ok.injEq] at h
            subst h
            rw [hrt]
            exact hdet
        · simp only [ha, Bool.false_eq_true, if_false, Except.ok.injEq] at h
          subst h
          rw [hrt]
          exact hdet
    · simp only [hu, Bool.false_eq_true, if_false, ebind_ok] at h
      have hrt : recordTexts (J.obj kvs) = [] := by
        simp [recordTexts, hu]
      have hgoal : (if s.detected_workflow = "" then
          ((firstHit (recordTexts (J.obj kvs))).map (fun d => d.1)).getD ""
        else s.detected_workflow) = s.detected_workflow := by
        rw [hrt]
        by_cases hsd : s.detected_workflow = "" <;> simp [hsd, firstHit]
      rw [hgoal]
      by_cases ha : jEqStr ((dictGet kvs "type").getD J.null) "assistant" = true
      · simp only [ha, if_true] at h
        cases has : assistantStep _ _ _ (J.obj kvs) with
        | error e =>
          rw [has] at h
          simp only [ebind] at h
          exact Except.noConfusion h
        | ok a =>
          rw [has] at h
          simp only [ebind_ok, Except.ok.injEq] at h
          subst h
          exact tsUpdate_detected s _
      · simp only [ha, Bool.false_eq_true, if_false, Except.ok.injEq] at h
        subst h
        exact tsUpdate_detected s _

theorem foldlM_detected :
    ∀ (lines : List LogLine) (s0 s' : ParseState),
      List.foldlM stepLine s0 lines = .ok s' →
      s'.detected_workflow =
        if s0.detected_workflow = "" then
          ((firstHit (allTexts lines)).map (fun d => d.1)).getD ""
        else s0.detected_workflow := by
  intro lines
  induction lines with
  | nil =>
    intro s0 s' h
    have h' : Except.ok s0 = Except.ok s' := h
    simp only [Except.ok.injEq] at h'
    subst h'
    by_cases hsd : s0.detected_workflow = "" <;> simp [hsd, allTexts, firstHit]
  | cons l rest ih =>
    intro s0 s' h
    match l with
    | none =>
      have h' : List.foldlM stepLine s0 rest = .ok s' := h
      have := ih s0 s' h'
      simpa [allTexts] using this
    | some j =>
      rw [List.foldlM_cons] at h
      cases hp : processRecord s0 j with
      | error e =>
        rw [show stepLine s0 (some j) = processRecord s0 j from rfl, hp] at h
        exact Except.noConfusion (show Except.error e = Except.ok s' from h)
      | ok s1 =>
        rw [show stepLine s0 (some j) = processRecord s0 j from rfl, hp] at h
        have h' : List.foldlM stepLine s1 rest = .ok s' := h
        have ihr := ih s1 s' h'
        have pd := processRecord_detected s0 j s1 hp
        have hall : allTexts (some j :: rest) = recordTexts j ++ allTexts rest :=
          rfl
        rw [hall, firstHit_append]
        by_cases hsd : s0.detected_workflow = ""
        · rw [if_pos hsd]
          rw [if_pos hsd] at pd
          cases hfh : firstHit (recordTexts j) with
          | some d =>
            rw [hfh] at pd
            simp only [Option.map, Option.getD] at pd
            have hne : d.1 ≠ "" := firstHit_fst_ne_empty _ d hfh
            rw [ihr, if_neg (by rw [pd]; exact hne), pd]
            rfl
          | none =>
            rw [hfh] at pd
            simp only [Option.map, Option.getD] at pd
            rw [ihr, if_pos pd]
        · rw [if_neg hsd]
          rw [if_neg hsd] at pd
          rw [ihr, pd, if_neg (pd ▸ hsd)]

/-- C9 amended: `detected_workflow` equals, over the whole log in
order, the first per-text hit — where a text's hit is its FIRST
command-name marker, provided that name is tracked — and once set it
is never overwritten (it is the first hit of the entire stream).  The
claim's stronger reading — the first tracked name APPEARING anywhere
in user text — fails: a text whose first marker is untracked is
discarded wholesale, even if a tracked marker follows in the same
text (see the counterexample). -/
theorem c9_workflow_detection (lines : List LogLine) (s' : ParseState)
    (h : parseLines lines = .ok s') :
    s'.detected_workflow =
      ((firstHit (allTexts lines)).map (fun d => d.1)).getD "" := by
  have hfold := foldlM_detected lines initState s' h
  simpa [initState] using hfold

/-- C9 counterexample: the tracked name `ecc-e2e` appears (as a
complete command marker) in the log's user text, yet
`detected_workflow` stays empty, because only the FIRST marker of each
text (`/foo`, untracked) is consulted.  So `detected_workflow_label`
is not \"the first tracked-workflow command name appearing in
user-record text\". -/
theorem c9_counterexample :
    (parseLines [some (userRec badText)]).map (fun s => s.detected_workflow) =
        .ok "" ∧
      "ecc-e2e" ∈ TRACKED_WORKFLOWS ∧
      ("<command-name>/ecc-e2e</command-name>").toList <:+: badText.toList :=
  ⟨rfl, by decide, by decide⟩

/-- Closed witness for the C9 amended theorem: in the two-message
scenario the first match wins and the later `ecc-e2e` never overwrites
it. -/
theorem c9_witness :
    (okState (parseLines scen9)).detected_workflow = "ecc-dev-story" := by
  have hok : parseLines scen9 = .ok (okState (parseLines scen9)) := rfl
  rw [c9_workflow_detection scen9 _ hok]
  rfl

theorem sortedCosts_history20 : sortedCosts history20 = sorted20 := rfl

theorem avgLast20_history20 : avgLast20 history20 = 6 / 5 := by
  have hco : costsOf history20 = sorted20 := rfl
  have hlen : (sortedCosts history20).length = 20 := rfl
  have hlast : lastN (costsOf history20) 20 = sorted20 := rfl
  rw [avgLast20, hlen, if_pos (by norm_num), hlast]
  rw [show avgOf sorted20 = sorted20.sum / sorted20.length from rfl]
  norm_num [sorted20, List.sum_cons, List.sum_nil]

theorem percentile_sorted20_75 : percentile sorted20 75 = 1 := by
  have hf : percentileF sorted20 75 = 14 := by
    rw [percentileF, pyInt, if_pos (by norm_num [sorted20])]
    rw [show ((sorted20.length : ℚ) - 1) = 19 from by norm_num [sorted20]]
    norm_num
  have hc : percentileC sorted20 75 = 15 := by
    rw [percentileC, hf, if_pos (by norm_num [sorted20])]
    norm_num
  have h14 : qIdx sorted20 14 = 1 := rfl
  have h15 : qIdx sorted20 15 = 1 := rfl
  simp only [percentile, hf, hc, h14, h15]
  ring

theorem warnThreshold_history20 : warnThreshold history20 = 9 / 5 := by
  rw [warnThreshold, sortedCosts_history20, percentile_sorted20_75,
    avgLast20_history20]
  rw [max_eq_right (by norm_num)]
  norm_num

theorem recentOutliers_history20 :
    recentOutliers history20 = [mkOutlier history20 r20] := by
  rw [recentOutliers]
  rw [show lastN history20 20 = history20 from rfl]
  rw [warnThreshold_history20]
  have hno : ((9 : ℚ) / 5 ≤ 1) = False := eq_false (by norm_num)
  have hyes : ((9 : ℚ) / 5 ≤ 5) = True := eq_true (by norm_num)
  simp only [history20, List.replicate, List.cons_append, List.nil_append,
    List.filterMap_cons, List.filterMap_nil, mkRow, r20, hno, hyes,
    if_false, if_true]

theorem mkOutlier_history20_r20 :
    mkOutlier history20 r20 =
      { date := "2026-01-20", session_id := "s20", cost := 5,
        ratioToAvg := 21 / 5 } := by
  rw [mkOutlier, avgLast20_history20]
  have hr : (if (0 : ℚ) < 6 / 5 then r20.total_cost / (6 / 5) else 0) = 25 / 6 := by
    rw [if_pos (by norm_num)]
    norm_num [r20, mkRow]
  rw [hr]
  have hround : pyRound (25 / 6) 1 = 21 / 5 := by
    rw [pyRound, roundHalfEven]
    have h1 : ((25 : ℚ) / 6 * 10 ^ 1) = 250 / 6 := by norm_num
    rw [h1]
    have hfl : ⌊(250 : ℚ) / 6⌋ = 41 := by norm_num
    rw [hfl]
    rw [if_neg (by norm_num), if_pos (by norm_num)]
    norm_num
  rw [hround]
  simp [r20, mkRow]

/-- C6: for every history, the stored warning and high thresholds are
(the 2-decimal rounding of) `max(P75, 1.5·avg20)` and
`max(P90, 2·avg20)`, and every row among the last 20 qualifying rows
whose cost reaches the (unrounded) warning threshold appears in
`recent_outliers` with its rounded cost-to-average-of-last-20 ratio;
in the 19×$1.00 + 1×$5.00 scenario the warning threshold is $1.80,
the $5.00 record is the single recent outlier, its exact ratio is
25/6 ≈ 4.17, and its stored (1-decimal-rounded) ratio is 4.2. -/
theorem c6_outlier_thresholds :
    (∀ (rows0 : List Row) (s : Stats), genStats rows0 = some s →
      s.warning = pyRound (warnThreshold (posRows rows0)) 2 ∧
      s.high = pyRound (highThreshold (posRows rows0)) 2 ∧
      ∀ r ∈ lastN (posRows rows0) 20,
        warnThreshold (posRows rows0) ≤ r.total_cost →
          mkOutlier (posRows rows0) r ∈ s.recent_outliers) ∧
    warnThreshold history20 = 9 / 5 ∧
    (genStats history20).map (fun s => s.recent_outliers) =
      some [mkOutlier history20 r20] ∧
    mkOutlier history20 r20 =
      { date := "2026-01-20", session_id := "s20", cost := 5,
        ratioToAvg := 21 / 5 } ∧
    r20.total_cost / avgLast20 history20 = 25 / 6 ∧
    |(25 : ℚ) / 6 - 4.17| < 1 / 100 := by
  refine ⟨?_, warnThreshold_history20, ?_, mkOutlier_history20_r20, ?_, ?_⟩
  · intro rows0 s h
    rw [genStats] at h
    split at h
    · exact Option.noConfusion h
    · rw [Option.some.injEq] at h
      subst h
      refine ⟨rfl, rfl, fun r hr hc => ?_⟩
      exact List.mem_filterMap.mpr ⟨r, hr, by rw [if_pos hc]⟩
  · rw [show (genStats history20).map (fun s => s.recent_outliers) =
      some (recentOutliers history20) from rfl, recentOutliers_history20]
  · rw [avgLast20_history20]
    norm_num [r20, mkRow]
  · rw [abs_sub_lt_iff]
    constructor <;> norm_num

/-- Closed witness for C6: in the scenario history, the $5.00 record
qualifies and its outlier entry is a member of the stored
`recent_outliers`. -/
theorem c6_witness :
    mkOutlier history20 r20 ∈
      ((genStats history20).getD emptyStats).recent_outliers := by
  have hok : genStats history20 = some ((genStats history20).getD emptyStats) :=
    rfl
  have h := c6_outlier_thresholds.1 history20 _ hok
  apply h.2.2 r20
  · decide
  · rw [show posRows history20 = history20 from rfl,
      c6_outlier_thresholds.2.1]
    norm_num [r20, mkRow]

theorem posRows_idem (rows : List Row) : posRows (posRows rows) = posRows rows := by
  rw [posRows, posRows, List.filter_filter]
  simp

/-- C7: `generate_stats` depends on its input only through the
positive-cost rows — the whole snapshot (averages, percentiles,
thresholds, trend and breakdowns) over any history equals the snapshot
over only its positive-cost rows; in particular one zero-cost row and
nine $1.00 rows yield overall average $1.00, not $0.90. -/
theorem c7_zero_cost_rows_excluded :
    (∀ rows : List Row, genStats (posRows rows) = genStats rows) ∧
      (genStats c7Rows).map (fun s => s.avg_overall) = some 1 ∧
      (1 : ℚ) ≠ 9 / 10 := by
  refine ⟨?_, ?_, by norm_num⟩
  · intro rows
    rw [genStats, genStats, posRows_idem]
  · have h1 : (genStats c7Rows).map (fun s => s.avg_overall) =
        some (pyRound (avgOf (costsOf (posRows c7Rows))) 2) := rfl
    have h2 : costsOf (posRows c7Rows) = [1, 1, 1, 1, 1, 1, 1, 1, 1] := rfl
    have h3 : avgOf [(1 : ℚ), 1, 1, 1, 1, 1, 1, 1, 1] = 1 := by
      rw [avgOf]
      norm_num [List.sum_cons, List.sum_nil]
    have h4 : pyRound 1 2 = 1 := by
      rw [pyRound, roundHalfEven]
      have h5 : ((1 : ℚ) * 10 ^ 2) = 100 := by norm_num
      rw [h5]
      have hfl : ⌊(100 : ℚ)⌋ = 100 := by norm_num
      rw [hfl]
      rw [if_pos (by norm_num)]
      norm_num
    rw [h1, h2, h3, h4]

end WCost
